import Mathlib

/-!
RedirFS hook installer (`src/redirfs/rfs.h`).

A shallow embedding of the operation-table macros of `rfs.h` and of the
pre/post callback protocol, together with the properties the specification
states about them.

* A function pointer is a natural number, `NULL` is `0`.
* An operation table (`struct file_operations`, `struct dentry_operations`,
  `struct inode_operations`, `struct address_space_operations`) is a map from
  a field (numbered) to the function pointer stored in it.
* A pointer to a table (`op_old`) is an `Option`: `none` is the NULL pointer.
* A bit array (`unsigned long x_op_bitfield[...]`) is a map from a bit number
  to the value of that bit.
-/

namespace Redirfs

/-! ## Data model -/

/-- A function pointer; `0` is the NULL pointer. -/
abbrev FnPtr := Nat

/-- The NULL function pointer. -/
def NULL : FnPtr := 0

/-- An operation table: field number to the function pointer stored in the field. -/
abbrev OpsTable := Nat → FnPtr

/-- The assignment `ops.op = v` on a table held by value. -/
def setOp (ops : OpsTable) (op : Nat) (v : FnPtr) : OpsTable :=
  fun o => if o = op then v else ops o

/-- The four kinds of operation table hooked by `rfs.h`: file (`f`), dentry (`d`),
inode (`i`) and address space (`a`) operations. -/
inductive ObjKind where
  | f
  | d
  | i
  | a
  deriving DecidableEq, Repr

/-- The declarations `rfs.h` takes from `redirfs.h`, which is not among the
sources: the two decoders of an operation code `idc` and the first and last
operation id of each kind (`RFS_OP_f_start`, `RFS_OP_f_end`, ...). They are
parameters of the development. -/
structure RedirfsDecls where
  RFS_IDC_TO_ITYPE : Nat → Nat
  RFS_IDC_TO_OP_ID : Nat → Nat
  RFS_OP_start : ObjKind → Nat
  RFS_OP_end : ObjKind → Nat

/-- Structure `struct rfs_ops`: `arr[itype][op_id]` counts the callbacks registered for an
operation (an `unsigned char`; only the fields read by the macros are kept). -/
structure rfs_ops where
  arr : Nat → Nat → Nat

/-! ## The table macros (rfs.h:56-75) -/

/-- Macro `RFS_ADD_OP(ops_new, ops_old, op, f)`:
`(ops_old && ops_old->op && ops_new.op != f) ? (ops_new.op = f) : (void)0`. -/
def RFS_ADD_OP (ops_new : OpsTable) (ops_old : Option OpsTable) (op : Nat) (f : FnPtr) :
    OpsTable :=
  match ops_old with
  | none => ops_new
  | some old =>
    if old op ≠ NULL then
      if ops_new op ≠ f then setOp ops_new op f else ops_new
    else ops_new

/-- Macro `RFS_ADD_OP_MGT(ops_new, ops_old, op, f)`:
`(ops_new.op != f) ? (ops_new.op = f) : (void)0`; `ops_old` is not read. -/
def RFS_ADD_OP_MGT (ops_new : OpsTable) (_ops_old : Option OpsTable) (op : Nat) (f : FnPtr) :
    OpsTable :=
  if ops_new op ≠ f then setOp ops_new op f else ops_new

/-- The value `ops_old ? ops_old->op : NULL`. -/
def oldOp (ops_old : Option OpsTable) (op : Nat) : FnPtr :=
  match ops_old with
  | none => NULL
  | some old => old op

/-- Macro `RFS_REM_OP(ops_new, ops_old, op)`: `ops_new.op = (ops_old ? ops_old->op : NULL)`. -/
def RFS_REM_OP (ops_new : OpsTable) (ops_old : Option OpsTable) (op : Nat) : OpsTable :=
  setOp ops_new op (oldOp ops_old op)

/-- Macro `RFS_SET_OP(arr, idc, ops_new, ops_old, op, f)`: hook the operation when
`arr[RFS_IDC_TO_ITYPE(idc)][RFS_IDC_TO_OP_ID(idc)]` is non-zero, restore it otherwise. -/
def RFS_SET_OP (H : RedirfsDecls) (arr : Nat → Nat → Nat) (idc : Nat) (ops_new : OpsTable)
    (ops_old : Option OpsTable) (op : Nat) (f : FnPtr) : OpsTable :=
  if arr (H.RFS_IDC_TO_ITYPE idc) (H.RFS_IDC_TO_OP_ID idc) ≠ 0 then
    RFS_ADD_OP ops_new ops_old op f
  else
    RFS_REM_OP ops_new ops_old op

/-- The original table defines the operation: `ops_old && ops_old->op`. -/
def definesOp (ops_old : Option OpsTable) (op : Nat) : Prop :=
  oldOp ops_old op ≠ NULL

instance (ops_old : Option OpsTable) (op : Nat) : Decidable (definesOp ops_old op) := by
  unfold definesOp; infer_instance

/-- The test `rinfo->rops && rinfo->rops->arr[RFS_IDC_TO_ITYPE(idc)][RFS_IDC_TO_OP_ID(idc)]`:
the Info has an operation table and it counts at least one callback for `idc`. -/
def interested (H : RedirfsDecls) (rops : Option rfs_ops) (idc : Nat) : Bool :=
  match rops with
  | none => false
  | some r => r.arr (H.RFS_IDC_TO_ITYPE idc) (H.RFS_IDC_TO_OP_ID idc) != 0

/-- One macro call: the management variant (`RFS_SET_xOP_MGT`) or the plain one
(`RFS_SET_xOP`), the object (numbered) it runs on, the value of that object
`rinfo->rops` at the time of the call, and the arguments `idc`, `op`, `f`. -/
structure Call where
  mgt : Bool
  obj : Nat
  rops : Option rfs_ops
  idc : Nat
  op : Nat
  f : FnPtr

/-! ## Per-object tables (`#ifdef RFS_PER_OBJECT_OPS`) -/

namespace PerObject

/-- The fields of a shadow object (`rfs_file`, `rfs_dentry`, `rfs_inode`) the
per-object macros use: the saved pointer to the driver's table (`op_old`,
`a_op_old`) and the private table (`op_new`, `a_op_new`). -/
structure Shadow where
  op_old : Option OpsTable
  op_new : OpsTable

/-- Macro `RFS_SET_FOP(rf, idc, op, f)` (rfs.h:83), `RFS_SET_DOP` (136), `RFS_SET_IOP`
(195) and `RFS_SET_AOP` (248), one text up to the names of the object's fields:
`rinfo->rops ? RFS_SET_OP(rinfo->rops->arr, idc, op_new, op_old, op, f)
             : RFS_REM_OP(op_new, op_old, op)`.
`rops` is the value of `rinfo->rops` (of `rdentry->rinfo->rops` for a file). -/
def RFS_SET_xOP (H : RedirfsDecls) (rops : Option rfs_ops) (ro : Shadow) (idc op : Nat)
    (f : FnPtr) : Shadow :=
  match rops with
  | some r => { ro with op_new := RFS_SET_OP H r.arr idc ro.op_new ro.op_old op f }
  | none => { ro with op_new := RFS_REM_OP ro.op_new ro.op_old op }

/-- Macro `RFS_SET_FOP` of the per-object build. -/
def RFS_SET_FOP := RFS_SET_xOP

/-- Macro `RFS_SET_DOP` of the per-object build. -/
def RFS_SET_DOP := RFS_SET_xOP

/-- Macro `RFS_SET_IOP` of the per-object build. -/
def RFS_SET_IOP := RFS_SET_xOP

/-- Macro `RFS_SET_AOP` of the per-object build. -/
def RFS_SET_AOP := RFS_SET_xOP

/-- Macro `RFS_SET_IOP_MGT(ri, idc, op, f)` (rfs.h:189):
`ri->rinfo->rops ? RFS_ADD_OP(ri->op_new, ri->op_old, op, f)
                 : RFS_REM_OP(ri->op_new, ri->op_old, op)`. -/
def RFS_SET_IOP_MGT (_H : RedirfsDecls) (rops : Option rfs_ops) (ri : Shadow) (_idc op : Nat)
    (f : FnPtr) : Shadow :=
  match rops with
  | some _ => { ri with op_new := RFS_ADD_OP ri.op_new ri.op_old op f }
  | none => { ri with op_new := RFS_REM_OP ri.op_new ri.op_old op }

/-- Macro `RFS_IS_FOP_SET`, `RFS_IS_DOP_SET`, `RFS_IS_IOP_SET`, `RFS_IS_AOP_SET`: `(true)`. -/
def RFS_IS_xOP_SET (_ro : Shadow) (_idc : Nat) : Bool := true

/-- The effect of a call on the object it runs on. -/
def step (H : RedirfsDecls) (ro : Shadow) (c : Call) : Shadow :=
  if c.mgt then RFS_SET_IOP_MGT H c.rops ro c.idc c.op c.f
  else RFS_SET_xOP H c.rops ro c.idc c.op c.f

/-- A finite sequence of calls on one object, first call first. -/
def run (H : RedirfsDecls) (ro : Shadow) (cs : List Call) : Shadow :=
  cs.foldl (step H) ro

/-- The shadow objects (numbered) of one driver, each with its private table. -/
abbrev Sys := Nat → Shadow

/-- The effect of a call on the objects: only the object it names changes. -/
def stepSys (H : RedirfsDecls) (s : Sys) (c : Call) : Sys :=
  fun p => if p = c.obj then step H (s p) c else s p

/-- A finite sequence of calls on the objects, first call first. -/
def runSys (H : RedirfsDecls) (s : Sys) (cs : List Call) : Sys :=
  cs.foldl (stepSys H) s

/-- The initial state: every private table a copy of the driver table (all NULL
when there is no driver table). -/
def init (old : Option OpsTable) : Sys :=
  fun _ => { op_old := old, op_new := oldOp old }

end PerObject

/-! ## Shared table gated by bit arrays (`#else` of `RFS_PER_OBJECT_OPS`) -/

/-- A bit array (`unsigned long bitfield[]`): bit number to the value of the bit. -/
abbrev Bitfield := Int → Bool

/-- The kernel primitive `test_bit(nr, addr)`. -/
def test_bit (nr : Int) (addr : Bitfield) : Bool := addr nr

/-- The kernel primitive `set_bit(nr, addr)`. -/
def set_bit (nr : Int) (addr : Bitfield) : Bitfield :=
  fun k => if k = nr then true else addr k

/-- The kernel primitive `clear_bit(nr, addr)`. -/
def clear_bit (nr : Int) (addr : Bitfield) : Bitfield :=
  fun k => if k = nr then false else addr k

/-- The kernel primitive `test_and_set_bit(nr, addr)`: sets the bit and returns
the value it had. -/
def test_and_set_bit (nr : Int) (addr : Bitfield) : Bool × Bitfield :=
  (addr nr, set_bit nr addr)

/-- The bit array with every bit clear. -/
def noBits : Bitfield := fun _ => false

namespace Shared

/-- Macro `RFS_FOP_BIT(idc)` (rfs.h:98), `RFS_DOP_BIT` (151), `RFS_IOP_BIT` (210),
`RFS_AOP_BIT` (257): `RFS_IDC_TO_OP_ID(idc) - RFS_OP_x_start`, an `int`. -/
def RFS_xOP_BIT (H : RedirfsDecls) (k : ObjKind) (idc : Nat) : Int :=
  (H.RFS_IDC_TO_OP_ID idc : Int) - (H.RFS_OP_start k : Int)

/-- Structure `struct rfs_hoperations`, the hook record shared by the objects of one
driver, as the macros use it: the pointer to the driver's table (`old.f_op`),
the shared patched table (`*new.f_op`) and the bit array of the operations
already installed in it (`f_op_bitfield`). -/
structure rfs_hoperations where
  old : Option OpsTable
  new : OpsTable
  op_bitfield : Bitfield

/-- What a shared-table macro reads and writes through a shadow object: the
record its `x_rhops` points to and its own bit array `x_op_bitfield`. -/
structure Shadow where
  rhops : rfs_hoperations
  op_bitfield : Bitfield

/-- Macro `RFS_IS_FOP_SET(rf, idc)` (rfs.h:100), `RFS_IS_DOP_SET` (153), `RFS_IS_IOP_SET`
(212), `RFS_IS_AOP_SET` (260): `test_bit(RFS_xOP_BIT(idc), rx->x_op_bitfield)`. -/
def RFS_IS_xOP_SET (H : RedirfsDecls) (k : ObjKind) (rx : Shadow) (idc : Nat) : Bool :=
  test_bit (RFS_xOP_BIT H k idc) rx.op_bitfield

/-- Macro `RFS_SET_FOP(rf, idc, op, f)` (rfs.h:102), `RFS_SET_DOP` (155), `RFS_SET_IOP`
(214), `RFS_SET_AOP` (264), one text up to the names of the fields and of the
start constant:
```
int nr = RFS_xOP_BIT(idc);
if (rinfo->rops && rinfo->rops->arr[..][..]) {
    if (!test_bit(nr, rhops->op_bitfield) && !test_and_set_bit(nr, rhops->op_bitfield))
        RFS_ADD_OP((*rhops->new.x_op), rhops->old.x_op, op, f);
    set_bit(nr, rx->x_op_bitfield);
} else if (test_bit(nr, rx->x_op_bitfield)) {
    clear_bit(nr, rx->x_op_bitfield);
}
```
-/
def RFS_SET_xOP (H : RedirfsDecls) (k : ObjKind) (rops : Option rfs_ops) (rx : Shadow)
    (idc op : Nat) (f : FnPtr) : Shadow :=
  let nr := RFS_xOP_BIT H k idc
  if interested H rops idc then
    let rhops1 :=
      if !test_bit nr rx.rhops.op_bitfield then
        let r := test_and_set_bit nr rx.rhops.op_bitfield
        if !r.1 then
          { rx.rhops with
            op_bitfield := r.2
            new := RFS_ADD_OP rx.rhops.new rx.rhops.old op f }
        else { rx.rhops with op_bitfield := r.2 }
      else rx.rhops
    { rhops := rhops1, op_bitfield := set_bit nr rx.op_bitfield }
  else if test_bit nr rx.op_bitfield then
    { rx with op_bitfield := clear_bit nr rx.op_bitfield }
  else rx

/-- Macro `RFS_SET_FOP_MGT(rf, idc, op, f)` (rfs.h:117), `RFS_SET_DOP_MGT` (170),
`RFS_SET_IOP_MGT` (229):
```
int nr = RFS_xOP_BIT(idc);
if (!test_bit(nr, rhops->op_bitfield) && !test_and_set_bit(nr, rhops->op_bitfield))
    RFS_ADD_OP_MGT((*rhops->new.x_op), rhops->old.x_op, op, f);
if (!test_bit(nr, rx->x_op_bitfield))
    set_bit(nr, rx->x_op_bitfield);
```
-/
def RFS_SET_xOP_MGT (H : RedirfsDecls) (k : ObjKind) (rx : Shadow) (idc op : Nat)
    (f : FnPtr) : Shadow :=
  let nr := RFS_xOP_BIT H k idc
  let rhops1 :=
    if !test_bit nr rx.rhops.op_bitfield then
      let r := test_and_set_bit nr rx.rhops.op_bitfield
      if !r.1 then
        { rx.rhops with
          op_bitfield := r.2
          new := RFS_ADD_OP_MGT rx.rhops.new rx.rhops.old op f }
      else { rx.rhops with op_bitfield := r.2 }
    else rx.rhops
  if !test_bit nr rx.op_bitfield then
    { rhops := rhops1, op_bitfield := set_bit nr rx.op_bitfield }
  else { rhops := rhops1, op_bitfield := rx.op_bitfield }

/-- Macro `RFS_SET_FOP` of the shared-table build. -/
def RFS_SET_FOP (H : RedirfsDecls) := RFS_SET_xOP H ObjKind.f

/-- Macro `RFS_SET_DOP` of the shared-table build. -/
def RFS_SET_DOP (H : RedirfsDecls) := RFS_SET_xOP H ObjKind.d

/-- Macro `RFS_SET_IOP` of the shared-table build. -/
def RFS_SET_IOP (H : RedirfsDecls) := RFS_SET_xOP H ObjKind.i

/-- Macro `RFS_SET_AOP` of the shared-table build. -/
def RFS_SET_AOP (H : RedirfsDecls) := RFS_SET_xOP H ObjKind.a

/-- Macro `RFS_SET_IOP_MGT` of the shared-table build. -/
def RFS_SET_IOP_MGT (H : RedirfsDecls) := RFS_SET_xOP_MGT H ObjKind.i

/-- Objects (numbered) that share one hook record: the record and the bit
array of every object. -/
structure Sys where
  rhops : rfs_hoperations
  bits : Nat → Bitfield

/-- What the macros see through object `o`. -/
def Sys.view (s : Sys) (o : Nat) : Shadow :=
  { rhops := s.rhops, op_bitfield := s.bits o }

/-- Store back what a macro left in the shared record and in object `o`. -/
def Sys.store (s : Sys) (o : Nat) (rx : Shadow) : Sys :=
  { rhops := rx.rhops, bits := fun p => if p = o then rx.op_bitfield else s.bits p }

/-- The effect of one call on the objects sharing a record of kind `k`. -/
def step (H : RedirfsDecls) (k : ObjKind) (s : Sys) (c : Call) : Sys :=
  if c.mgt then s.store c.obj (RFS_SET_xOP_MGT H k (s.view c.obj) c.idc c.op c.f)
  else s.store c.obj (RFS_SET_xOP H k c.rops (s.view c.obj) c.idc c.op c.f)

/-- A finite sequence of calls, first call first. -/
def run (H : RedirfsDecls) (k : ObjKind) (s : Sys) (cs : List Call) : Sys :=
  cs.foldl (step H k) s

/-- The initial state: no bit set anywhere, the shared table a copy of the
driver's table (all NULL when there is no driver table). -/
def init (old : Option OpsTable) : Sys :=
  { rhops := { old := old, new := oldOp old, op_bitfield := noBits }
    bits := fun _ => noBits }

end Shared

/-! ## The relation between the two builds -/

/-- The relation kept between the per-object build `P` and the shared-table
build `S` while the same plain calls for one operation (`idc`, field `op`,
trampoline `f`) are applied to both: the saved driver table is `old` on both
sides; an object bit implies the shared bit; the shared slot is `f` exactly when
the shared bit is set and the driver defines the operation, the driver pointer
otherwise; and so is every private slot, with the bit of its object. -/
def Agree (H : RedirfsDecls) (k : ObjKind) (old : Option OpsTable) (idc op : Nat) (f : FnPtr)
    (P : PerObject.Sys) (S : Shared.Sys) : Prop :=
  (∀ o, (P o).op_old = old) ∧
  S.rhops.old = old ∧
  (∀ o, test_bit (Shared.RFS_xOP_BIT H k idc) (S.bits o) = true →
    test_bit (Shared.RFS_xOP_BIT H k idc) S.rhops.op_bitfield = true) ∧
  (S.rhops.new op =
    if test_bit (Shared.RFS_xOP_BIT H k idc) S.rhops.op_bitfield = true ∧ definesOp old op
    then f else oldOp old op) ∧
  (∀ o, (P o).op_new op =
    if test_bit (Shared.RFS_xOP_BIT H k idc) (S.bits o) = true ∧ definesOp old op
    then f else oldOp old op)

/-! ## Dispatch core: the pre/post callback protocol

`rfs.h` declares `rfs_precall_flts` and `rfs_postcall_flts` (rfs.h:713-716) and
the structures they work on; their bodies are not among the sources and are
modelled from section 4.5 of the specification. The state `σ` stands for what
a callback can read and write: the argument bundle and the context side data. -/

namespace Dispatch

/-- The value a callback returns (`enum redirfs_rv` of `redirfs.h`): the
specification names `CONTINUE` and `STOP`. -/
inductive redirfs_rv where
  | CONTINUE
  | STOP
  deriving DecidableEq, Repr

/-- Structure `struct rfs_op_info` (rfs.h:352): the pre and the post callback of a filter for
one operation, either of which may be NULL. -/
structure rfs_op_info (σ : Type) where
  pre_cb : Option (σ → redirfs_rv × σ)
  post_cb : Option (σ → redirfs_rv × σ)

/-- Structure `struct rfs_flt` (rfs.h:357), the fields the dispatch core reads: the callback
table `cbs[RFS_INODE_MAX][RFS_OP_MAX]` and the activation flag. -/
structure rfs_flt (σ : Type) where
  cbs : Nat → Nat → rfs_op_info σ
  active : Bool

/-- Structure `struct rfs_context` (rfs.h:704), the cursor fields. -/
structure rfs_context where
  idx : Int
  idx_start : Int
  deriving DecidableEq, Repr

/-- What a run of the protocol invokes, in order: the pre-callback of the filter
at an index, the real operation, the post-callback of the filter at an index. -/
inductive Event where
  | pre (i : Nat)
  | real
  | post (i : Nat)
  deriving DecidableEq, Repr

/-- The event is the invocation of a post-callback. -/
def Event.isPost : Event → Bool
  | Event.post _ => true
  | _ => false

/-- The state of one intercepted call: the context cursor, the state the
callbacks work on, and the invocations made so far (oldest first). -/
structure CallState (σ : Type) where
  rcont : rfs_context
  rargs : σ
  log : List Event

/-- Modelled from the spec: the forward walk of `rfs_precall_flts`, whose body is
not among the sources. "Walk the resolved chain forward from index 0; for each
active filter with a non-null pre-callback, invoke it"; `CONTINUE` advances to
the next filter, `STOP` skips the remaining filters; "record the highest index
reached (`idx`)". `fs` is the part of the chain from index `idx` on. The result
tells whether a filter stopped the walk. -/
def precall_from {σ : Type} (itype op : Nat) :
    List (rfs_flt σ) → Nat → CallState σ → Bool × CallState σ
  | [], idx, st => (false, { st with rcont := { st.rcont with idx := (idx : Int) - 1 } })
  | flt :: fs, idx, st =>
    if flt.active then
      match (flt.cbs itype op).pre_cb with
      | none => precall_from itype op fs (idx + 1) st
      | some cb =>
        match (cb st.rargs).1 with
        | redirfs_rv.STOP =>
          (true, { rcont := { st.rcont with idx := (idx : Int) }
                   rargs := (cb st.rargs).2
                   log := st.log ++ [Event.pre idx] })
        | redirfs_rv.CONTINUE =>
          precall_from itype op fs (idx + 1)
            { st with rargs := (cb st.rargs).2, log := st.log ++ [Event.pre idx] }
    else precall_from itype op fs (idx + 1) st

/-- Modelled from the spec: `rfs_precall_flts(rchain, rcont, rargs)`, whose body is
not among the sources: the pre-phase of section 4.5, from index 0. -/
def rfs_precall_flts {σ : Type} (itype op : Nat) (rchain : List (rfs_flt σ))
    (st : CallState σ) : Bool × CallState σ :=
  precall_from itype op rchain 0 st

/-- Modelled from the spec: the backward walk of `rfs_postcall_flts`, whose body is
not among the sources. "Walk the chain backward from `idx` to 0, invoking each
filter's post-callback"; a filter that is inactive (section 4.1: the dispatch
core skips inactive filters) or has no post-callback is passed over. `n` is the
number of indices left to visit: `n - 1` down to `0`. -/
def postcall_from {σ : Type} (itype op : Nat) (rchain : List (rfs_flt σ)) :
    Nat → CallState σ → CallState σ
  | 0, st => st
  | n + 1, st =>
    match rchain[n]? with
    | none => postcall_from itype op rchain n st
    | some flt =>
      if flt.active then
        match (flt.cbs itype op).post_cb with
        | none => postcall_from itype op rchain n st
        | some cb =>
          postcall_from itype op rchain n
            { st with rargs := (cb st.rargs).2, log := st.log ++ [Event.post n] }
      else postcall_from itype op rchain n st

/-- Modelled from the spec: `rfs_postcall_flts(rchain, rcont, rargs)`, whose body is
not among the sources: the post-phase of section 4.5, from `rcont->idx` down to 0. -/
def rfs_postcall_flts {σ : Type} (itype op : Nat) (rchain : List (rfs_flt σ))
    (st : CallState σ) : CallState σ :=
  postcall_from itype op rchain (st.rcont.idx + 1).toNat st

/-- Modelled from the spec: the protocol of section 4.5 around one intercepted
operation (the per-operation glue is not among the sources): the pre-phase; "if
no `STOP` was returned, invoke the real underlying operation"; the post-phase. -/
def dispatch {σ : Type} (itype op : Nat) (invoke_real : σ → σ) (rchain : List (rfs_flt σ))
    (rargs : σ) : CallState σ :=
  let p := rfs_precall_flts itype op rchain { rcont := ⟨0, 0⟩, rargs := rargs, log := [] }
  if p.1 then rfs_postcall_flts itype op rchain p.2
  else
    rfs_postcall_flts itype op rchain
      { p.2 with rargs := invoke_real p.2.rargs, log := p.2.log ++ [Event.real] }

/-- What the pre-callback of a filter returns on state `a`; a filter that is
inactive or has no pre-callback is not asked and the walk continues. -/
def preRv {σ : Type} (itype op : Nat) (flt : rfs_flt σ) (a : σ) : redirfs_rv :=
  if flt.active then
    match (flt.cbs itype op).pre_cb with
    | none => redirfs_rv.CONTINUE
    | some cb => (cb a).1
  else redirfs_rv.CONTINUE

/-- The state the pre-callback of a filter leaves; unchanged when the filter is
inactive or has no pre-callback. -/
def preNext {σ : Type} (itype op : Nat) (a : σ) (flt : rfs_flt σ) : σ :=
  if flt.active then
    match (flt.cbs itype op).pre_cb with
    | none => a
    | some cb => (cb a).2
  else a

/-- The state after the pre-callbacks of the filters `fs`, run in order. -/
def preArgs {σ : Type} (itype op : Nat) (fs : List (rfs_flt σ)) (a : σ) : σ :=
  fs.foldl (preNext itype op) a

/-- The pre-callback of filter `i` (counted from 0) is the first to return `STOP`:
filter `i` exists and its pre-callback returns `STOP` on the state the
earlier pre-callbacks leave, and no earlier filter returns `STOP`. -/
def FirstStop {σ : Type} (itype op : Nat) (rchain : List (rfs_flt σ)) (a : σ) (i : Nat) :
    Prop :=
  (∃ flt, rchain[i]? = some flt ∧
    preRv itype op flt (preArgs itype op (rchain.take i) a) = redirfs_rv.STOP) ∧
  ∀ j, j < i → ∀ g, rchain[j]? = some g →
    preRv itype op g (preArgs itype op (rchain.take j) a) = redirfs_rv.CONTINUE

/-- The filter at index `j` has a post-callback the dispatch core invokes: it
exists, is active and its `post_cb` is not NULL. -/
def runsPost {σ : Type} (itype op : Nat) (rchain : List (rfs_flt σ)) (j : Nat) : Bool :=
  match rchain[j]? with
  | none => false
  | some flt => flt.active && (flt.cbs itype op).post_cb.isSome

/-- The post-callbacks the dispatch core invokes when it walks back over the
indices `n - 1`, ..., `0`. -/
def postEvents {σ : Type} (itype op : Nat) (rchain : List (rfs_flt σ)) (n : Nat) :
    List Event :=
  ((List.range n).reverse.filter (runsPost itype op rchain)).map Event.post

/-- A sample filter on states that are numbers: active, with a pre-callback that
adds `d` and returns `rv`, and a post-callback. -/
def sampleFlt (rv : redirfs_rv) (d : Nat) : rfs_flt Nat where
  cbs := fun _ _ =>
    { pre_cb := some (fun a => (rv, a + d))
      post_cb := some (fun a => (redirfs_rv.CONTINUE, a + 100)) }
  active := true

/-- A sample chain of four filters whose third filter stops. -/
def sampleChain : List (rfs_flt Nat) :=
  [sampleFlt redirfs_rv.CONTINUE 1, sampleFlt redirfs_rv.CONTINUE 2,
   sampleFlt redirfs_rv.STOP 3, sampleFlt redirfs_rv.CONTINUE 4]

end Dispatch

/-! ## Calls tied to one operation, interest counters, bit array sizes -/

/-- The call `c` is consistent with the operation that has operation code `idc`,
field `op` and trampoline `f`: it has the bit number of `idc` exactly when it
names the field `op`, and then its trampoline is `f`. Every macro call in the
sources of one table hands over an operation code together with the field and
the trampoline of that operation. -/
def Shared.Tied (H : RedirfsDecls) (k : ObjKind) (idc op : Nat) (f : FnPtr) (c : Call) : Prop :=
  (Shared.RFS_xOP_BIT H k c.idc = Shared.RFS_xOP_BIT H k idc ↔ c.op = op) ∧
  (c.op = op → c.f = f)

instance (H : RedirfsDecls) (k : ObjKind) (idc op : Nat) (f : FnPtr) (c : Call) :
    Decidable (Shared.Tied H k idc op f c) := by
  unfold Shared.Tied; infer_instance

/-- The first call of the list that reaches the installation step for the bit
of `idc` (a management call, or a plain call with an interested filter, whose
operation code has that bit number) is a plain call. False when no call of the
list reaches the installation step for that bit. -/
def Shared.plainInstallsFirst (H : RedirfsDecls) (k : ObjKind) (idc : Nat) : List Call → Bool
  | [] => false
  | d :: ds =>
    if Shared.RFS_xOP_BIT H k d.idc = Shared.RFS_xOP_BIT H k idc then
      if d.mgt then false
      else if interested H d.rops d.idc then true
      else Shared.plainInstallsFirst H k idc ds
    else Shared.plainInstallsFirst H k idc ds

/-- The increment `x++` of an `unsigned char`. -/
def uchar_inc (x : Nat) : Nat := (x + 1) % 256

/-- The number of callbacks (0, 1 or 2) a filter has for an operation: its
non-NULL `pre_cb` and `post_cb`. -/
def callbacksOf {σ : Type} (flt : Dispatch.rfs_flt σ) (itype op : Nat) : Nat :=
  (if (flt.cbs itype op).pre_cb.isSome then 1 else 0) +
    (if (flt.cbs itype op).post_cb.isSome then 1 else 0)

/-- The exact number of callbacks the filters of a chain have for an operation. -/
def callbackCount {σ : Type} (rchain : List (Dispatch.rfs_flt σ)) (itype op : Nat) : Nat :=
  (rchain.map (fun flt => callbacksOf flt itype op)).sum

/-- Modelled from the spec: what one filter adds to the table in `rfs_chain_ops`,
whose body is not among the sources: `arr[itype][op]` is incremented once for a
non-NULL pre-callback and once for a non-NULL post-callback ("pre and post
callbacks are accounted separatelly", rfs.h:445), as an `unsigned char`. -/
def rfs_flt_ops {σ : Type} (ops : rfs_ops) (flt : Dispatch.rfs_flt σ) : rfs_ops where
  arr := fun itype op =>
    let v1 := if (flt.cbs itype op).pre_cb.isSome then uchar_inc (ops.arr itype op)
      else ops.arr itype op
    if (flt.cbs itype op).post_cb.isSome then uchar_inc v1 else v1

/-- Modelled from the spec: `rfs_chain_ops(rchain, ops)` (declared at rfs.h:466, its
body is not among the sources), the `derive_table` of the specification: it
"increments `table_out[type][op]` for every (type, op) any filter in chain has
a non-null pre or post callback for", filter after filter. -/
def rfs_chain_ops {σ : Type} (rchain : List (Dispatch.rfs_flt σ)) (ops : rfs_ops) : rfs_ops :=
  rchain.foldl rfs_flt_ops ops

/-- The kernel macro `BIT_WORD(nr)`: `((nr) / BITS_PER_LONG)`, a division of C
integers (truncated). -/
def BIT_WORD (BITS_PER_LONG : Nat) (nr : Int) : Int := Int.tdiv nr (BITS_PER_LONG : Int)

/-- The number of words of the bit array of an object of kind `k`
(rfs.h:519, 574, 575, 624): `BIT_WORD(RFS_OP_x_end-RFS_OP_x_start) + 1`. -/
def bitfieldWords (H : RedirfsDecls) (BITS_PER_LONG : Nat) (k : ObjKind) : Int :=
  BIT_WORD BITS_PER_LONG ((H.RFS_OP_end k : Int) - (H.RFS_OP_start k : Int)) + 1

/-- The number of bits of the bit array of an object of kind `k`. -/
def bitfieldCapacity (H : RedirfsDecls) (BITS_PER_LONG : Nat) (k : ObjKind) : Int :=
  bitfieldWords H BITS_PER_LONG k * (BITS_PER_LONG : Int)

/-- A sample chain of `n` filters that all have both callbacks. -/
def sampleFullChain (n : Nat) : List (Dispatch.rfs_flt Nat) :=
  List.replicate n (Dispatch.sampleFlt Dispatch.redirfs_rv.CONTINUE 1)

/-- The operation table with every counter at zero. -/
def zeroOps : rfs_ops := ⟨fun _ _ => 0⟩

/-! ## Sample data used to instantiate the theorems -/

/-- A sample decoding: the operation id is `idc % 100`, the inode type `idc / 100`;
file operations have ids 0..9, dentry 10..19, inode 20..39, address space 40..49. -/
def sampleDecls : RedirfsDecls where
  RFS_IDC_TO_ITYPE := fun idc => idc / 100
  RFS_IDC_TO_OP_ID := fun idc => idc % 100
  RFS_OP_start := fun k => match k with
    | .f => 0
    | .d => 10
    | .i => 20
    | .a => 40
  RFS_OP_end := fun k => match k with
    | .f => 9
    | .d => 19
    | .i => 39
    | .a => 49

/-- A driver table defining fields 0 and 1 (functions 11 and 12) and nothing else. -/
def sampleOld : OpsTable := fun o => if o = 0 then 11 else if o = 1 then 12 else NULL

/-- An operation table of an Info with `n` callbacks registered on every operation. -/
def sampleRops (n : Nat) : rfs_ops := ⟨fun _ _ => n⟩

/-! ## Lemmas on the table macros -/

theorem setOp_same (ops : OpsTable) (op : Nat) (v : FnPtr) : setOp ops op v op = v := by
  simp [setOp]

theorem setOp_other (ops : OpsTable) {op o : Nat} (v : FnPtr) (h : o ≠ op) :
    setOp ops op v o = ops o := by
  simp [setOp, h]

theorem RFS_REM_OP_same (n : OpsTable) (old : Option OpsTable) (op : Nat) :
    RFS_REM_OP n old op op = oldOp old op := by
  simp [RFS_REM_OP, setOp]

theorem RFS_REM_OP_other (n : OpsTable) (old : Option OpsTable) {op o : Nat} (h : o ≠ op) :
    RFS_REM_OP n old op o = n o := by
  simp [RFS_REM_OP, setOp, h]

theorem RFS_ADD_OP_other (n : OpsTable) (old : Option OpsTable) {op o : Nat} (f : FnPtr)
    (h : o ≠ op) : RFS_ADD_OP n old op f o = n o := by
  unfold RFS_ADD_OP
  cases old with
  | none => rfl
  | some t =>
    dsimp only
    split_ifs <;> simp [setOp, h]

theorem RFS_ADD_OP_defined (n : OpsTable) (old : Option OpsTable) (op : Nat) (f : FnPtr)
    (h : definesOp old op) : RFS_ADD_OP n old op f op = f := by
  unfold RFS_ADD_OP
  cases old with
  | none => exact absurd rfl h
  | some t =>
    have ht : t op ≠ NULL := h
    dsimp only
    rw [if_pos ht]
    by_cases hn : n op = f
    · simp [hn]
    · simp [hn, setOp]

theorem RFS_ADD_OP_undefined (n : OpsTable) (old : Option OpsTable) (op : Nat) (f : FnPtr)
    (h : ¬ definesOp old op) : RFS_ADD_OP n old op f = n := by
  unfold RFS_ADD_OP
  cases old with
  | none => rfl
  | some t =>
    have ht : ¬ t op ≠ NULL := h
    dsimp only
    rw [if_neg ht]

theorem RFS_ADD_OP_MGT_same (n : OpsTable) (old : Option OpsTable) (op : Nat) (f : FnPtr) :
    RFS_ADD_OP_MGT n old op f op = f := by
  unfold RFS_ADD_OP_MGT
  by_cases hn : n op = f
  · simp [hn]
  · simp [hn, setOp]

theorem RFS_ADD_OP_MGT_other (n : OpsTable) (old : Option OpsTable) {op o : Nat} (f : FnPtr)
    (h : o ≠ op) : RFS_ADD_OP_MGT n old op f o = n o := by
  unfold RFS_ADD_OP_MGT
  split_ifs <;> simp [setOp, h]

theorem oldOp_of_not_defines {old : Option OpsTable} {op : Nat} (h : ¬ definesOp old op) :
    oldOp old op = NULL := by
  unfold definesOp at h
  exact not_not.mp h

/-! ## Per-object tables: sequences of calls -/

theorem PerObject.step_op_old (H : RedirfsDecls) (ro : PerObject.Shadow) (c : Call) :
    (PerObject.step H ro c).op_old = ro.op_old := by
  unfold PerObject.step PerObject.RFS_SET_IOP_MGT PerObject.RFS_SET_xOP
  cases c.mgt <;> cases c.rops <;> rfl

theorem PerObject.step_null (H : RedirfsDecls) (ro : PerObject.Shadow) (c : Call)
    (op : Nat) (hold : ¬ definesOp ro.op_old op) (h0 : ro.op_new op = NULL) :
    (PerObject.step H ro c).op_new op = NULL := by
  have hrem : RFS_REM_OP ro.op_new ro.op_old c.op op = NULL := by
    by_cases hop : op = c.op
    · subst hop
      rw [RFS_REM_OP_same]
      exact oldOp_of_not_defines hold
    · rw [RFS_REM_OP_other _ _ hop]
      exact h0
  have hadd : RFS_ADD_OP ro.op_new ro.op_old c.op c.f op = NULL := by
    by_cases hop : op = c.op
    · subst hop
      rw [RFS_ADD_OP_undefined _ _ _ _ hold]
      exact h0
    · rw [RFS_ADD_OP_other _ _ _ hop]
      exact h0
  unfold PerObject.step PerObject.RFS_SET_IOP_MGT PerObject.RFS_SET_xOP RFS_SET_OP
  cases c.mgt <;> cases c.rops <;> simp only [Bool.false_eq_true, if_true, if_false]
  · exact hrem
  · split_ifs
    · exact hadd
    · exact hrem
  · exact hrem
  · exact hadd

/-- Claim C1 (per-object tables, driver semantics preserved). If the driver's table
pointer is NULL or the driver's table does not define operation `op`, and the
private slot of `op` is NULL, then after any finite sequence of per-object
`RFS_SET_FOP` / `RFS_SET_DOP` / `RFS_SET_IOP` / `RFS_SET_AOP` / `RFS_SET_IOP_MGT`
calls, with any interest counts, operation codes, fields and trampolines, the
private slot of `op` is still NULL. -/
theorem C1_absent_operation_stays_null (H : RedirfsDecls) (ro : PerObject.Shadow) (op : Nat)
    (cs : List Call)
    (hold : ro.op_old = none ∨ ∃ t, ro.op_old = some t ∧ t op = NULL)
    (h0 : ro.op_new op = NULL) :
    (PerObject.run H ro cs).op_new op = NULL := by
  have hnd : ¬ definesOp ro.op_old op := by
    rcases hold with h | ⟨t, h, ht⟩
    · simp [definesOp, oldOp, h]
    · simp [definesOp, oldOp, h, ht]
  unfold PerObject.run
  induction cs generalizing ro with
  | nil => exact h0
  | cons c cs ih =>
    rw [List.foldl_cons]
    apply ih
    · rw [PerObject.step_op_old]
      exact hold
    · exact PerObject.step_null H ro c op hnd h0
    · rw [PerObject.step_op_old]
      exact hnd

/-- Witness of claim C1: a driver table without field 5, three calls naming field 5. -/
theorem C1_absent_operation_stays_null_witness :
    (PerObject.run sampleDecls ⟨some sampleOld, sampleOld⟩
      [⟨false, 0, some (sampleRops 2), 5, 5, 77⟩, ⟨true, 0, some (sampleRops 0), 5, 5, 77⟩,
       ⟨false, 0, none, 5, 5, 77⟩]).op_new 5 = NULL :=
  C1_absent_operation_stays_null sampleDecls ⟨some sampleOld, sampleOld⟩ 5 _
    (Or.inr ⟨sampleOld, rfl, by decide⟩) (by decide)

/-- Claim C2 (per-object tables, hooking). When the Info has an operation table
(`rinfo->rops` non-NULL), the count `arr[type][op]` is at least 1, the driver's
table pointer is non-NULL and the driver's table defines the operation, the
private slot equals the trampoline `f` after `RFS_SET_FOP` / `RFS_SET_DOP` /
`RFS_SET_IOP` / `RFS_SET_AOP`, whatever it held before. -/
theorem C2_interested_defined_slot_is_trampoline (H : RedirfsDecls) (r : rfs_ops)
    (ro : PerObject.Shadow) (idc op : Nat) (f : FnPtr) (t : OpsTable)
    (hcnt : 1 ≤ r.arr (H.RFS_IDC_TO_ITYPE idc) (H.RFS_IDC_TO_OP_ID idc))
    (hold : ro.op_old = some t) (hop : t op ≠ NULL) :
    (PerObject.RFS_SET_xOP H (some r) ro idc op f).op_new op = f := by
  have hdef : definesOp ro.op_old op := by
    rw [hold]
    exact hop
  have hne : r.arr (H.RFS_IDC_TO_ITYPE idc) (H.RFS_IDC_TO_OP_ID idc) ≠ 0 := by omega
  simp only [PerObject.RFS_SET_xOP, RFS_SET_OP, if_pos hne]
  exact RFS_ADD_OP_defined _ _ _ _ hdef

/-- Witness of claim C2: field 1 of the sample driver table, two callbacks registered,
a private slot that held 99. -/
theorem C2_interested_defined_slot_is_trampoline_witness :
    (PerObject.RFS_SET_xOP sampleDecls (some (sampleRops 2)) ⟨some sampleOld, fun _ => 99⟩
      301 1 77).op_new 1 = 77 :=
  C2_interested_defined_slot_is_trampoline sampleDecls (sampleRops 2)
    ⟨some sampleOld, fun _ => 99⟩ 301 1 77 sampleOld (by decide) rfl (by decide)

/-- Claim C3 (per-object tables, unhooking). When the Info has no operation table or
the count `arr[type][op]` is 0, the private slot after `RFS_SET_FOP` / `RFS_SET_DOP` /
`RFS_SET_IOP` / `RFS_SET_AOP` is the driver's pointer for the operation
(`op_old ? op_old->op : NULL`, hence NULL when the driver's table pointer is NULL),
whatever the slot held before. -/
theorem C3_not_interested_slot_is_original (H : RedirfsDecls) (rops : Option rfs_ops)
    (ro : PerObject.Shadow) (idc op : Nat) (f : FnPtr)
    (h : rops = none ∨
      ∃ r, rops = some r ∧ r.arr (H.RFS_IDC_TO_ITYPE idc) (H.RFS_IDC_TO_OP_ID idc) = 0) :
    (PerObject.RFS_SET_xOP H rops ro idc op f).op_new op
        = (match ro.op_old with
           | some t => t op
           | none => NULL) := by
  have hrem : RFS_REM_OP ro.op_new ro.op_old op op
      = (match ro.op_old with
         | some t => t op
         | none => NULL) := by
    rw [RFS_REM_OP_same]
    cases ro.op_old <;> rfl
  rcases h with h | ⟨r, h, hz⟩
  · subst h
    exact hrem
  · subst h
    simp only [PerObject.RFS_SET_xOP, RFS_SET_OP, hz, ne_eq, not_true_eq_false, if_false]
    exact hrem

/-- Witness of claim C3: no callback registered, the slot held the trampoline. -/
theorem C3_not_interested_slot_is_original_witness :
    (PerObject.RFS_SET_xOP sampleDecls (some (sampleRops 0)) ⟨some sampleOld, fun _ => 77⟩
      301 1 77).op_new 1 = 12 :=
  C3_not_interested_slot_is_original sampleDecls (some (sampleRops 0))
    ⟨some sampleOld, fun _ => 77⟩ 301 1 77 (Or.inr ⟨sampleRops 0, rfl, rfl⟩)

/-! ## Bit arrays -/

theorem test_bit_set_bit_same (nr : Int) (b : Bitfield) : test_bit nr (set_bit nr b) = true := by
  simp [test_bit, set_bit]

theorem test_bit_set_bit_other (b : Bitfield) {nr m : Int} (h : m ≠ nr) :
    test_bit m (set_bit nr b) = test_bit m b := by
  simp [test_bit, set_bit, h]

theorem test_bit_clear_bit_same (nr : Int) (b : Bitfield) :
    test_bit nr (clear_bit nr b) = false := by
  simp [test_bit, clear_bit]

theorem test_bit_clear_bit_other (b : Bitfield) {nr m : Int} (h : m ≠ nr) :
    test_bit m (clear_bit nr b) = test_bit m b := by
  simp [test_bit, clear_bit, h]

theorem set_bit_of_set {nr : Int} {b : Bitfield} (h : test_bit nr b = true) :
    set_bit nr b = b := by
  funext k
  unfold set_bit
  by_cases hk : k = nr
  · subst hk
    simpa [test_bit] using h.symm
  · simp [hk]

theorem clear_bit_of_clear {nr : Int} {b : Bitfield} (h : test_bit nr b = false) :
    clear_bit nr b = b := by
  funext k
  unfold clear_bit
  by_cases hk : k = nr
  · subst hk
    simpa [test_bit] using h.symm
  · simp [hk]

/-! ## Shared table: what one call does -/

/-- The shared record after the installation step of `RFS_SET_xOP`. -/
theorem Shared.RFS_SET_xOP_rhops (H : RedirfsDecls) (k : ObjKind) (rops : Option rfs_ops)
    (rx : Shared.Shadow) (idc op : Nat) (f : FnPtr) :
    (Shared.RFS_SET_xOP H k rops rx idc op f).rhops =
      if interested H rops idc = true ∧
          test_bit (Shared.RFS_xOP_BIT H k idc) rx.rhops.op_bitfield = false then
        { old := rx.rhops.old
          new := RFS_ADD_OP rx.rhops.new rx.rhops.old op f
          op_bitfield := set_bit (Shared.RFS_xOP_BIT H k idc) rx.rhops.op_bitfield }
      else rx.rhops := by
  simp only [Shared.RFS_SET_xOP, test_and_set_bit, test_bit]
  cases interested H rops idc
  · simp only [Bool.false_eq_true, if_false, false_and]
    split_ifs <;> rfl
  · by_cases hb : rx.rhops.op_bitfield (Shared.RFS_xOP_BIT H k idc) = true <;> simp [hb]

/-- The bit array of the object after `RFS_SET_xOP`. -/
theorem Shared.RFS_SET_xOP_bits (H : RedirfsDecls) (k : ObjKind) (rops : Option rfs_ops)
    (rx : Shared.Shadow) (idc op : Nat) (f : FnPtr) :
    (Shared.RFS_SET_xOP H k rops rx idc op f).op_bitfield =
      if interested H rops idc = true then
        set_bit (Shared.RFS_xOP_BIT H k idc) rx.op_bitfield
      else clear_bit (Shared.RFS_xOP_BIT H k idc) rx.op_bitfield := by
  simp only [Shared.RFS_SET_xOP]
  cases interested H rops idc
  · simp only [Bool.false_eq_true, if_false]
    cases hb : test_bit (Shared.RFS_xOP_BIT H k idc) rx.op_bitfield
    · simp only [Bool.false_eq_true, if_false]
      exact (clear_bit_of_clear hb).symm
    · simp
  · simp

/-- The shared record after the installation step of `RFS_SET_xOP_MGT`. -/
theorem Shared.RFS_SET_xOP_MGT_rhops (H : RedirfsDecls) (k : ObjKind)
    (rx : Shared.Shadow) (idc op : Nat) (f : FnPtr) :
    (Shared.RFS_SET_xOP_MGT H k rx idc op f).rhops =
      if test_bit (Shared.RFS_xOP_BIT H k idc) rx.rhops.op_bitfield = false then
        { old := rx.rhops.old
          new := RFS_ADD_OP_MGT rx.rhops.new rx.rhops.old op f
          op_bitfield := set_bit (Shared.RFS_xOP_BIT H k idc) rx.rhops.op_bitfield }
      else rx.rhops := by
  simp only [Shared.RFS_SET_xOP_MGT, test_and_set_bit, test_bit]
  by_cases hb : rx.rhops.op_bitfield (Shared.RFS_xOP_BIT H k idc) = true <;>
    by_cases hc : rx.op_bitfield (Shared.RFS_xOP_BIT H k idc) = true <;> simp [hb, hc]

/-- The bit array of the object after `RFS_SET_xOP_MGT`. -/
theorem Shared.RFS_SET_xOP_MGT_bits (H : RedirfsDecls) (k : ObjKind)
    (rx : Shared.Shadow) (idc op : Nat) (f : FnPtr) :
    (Shared.RFS_SET_xOP_MGT H k rx idc op f).op_bitfield =
      set_bit (Shared.RFS_xOP_BIT H k idc) rx.op_bitfield := by
  simp only [Shared.RFS_SET_xOP_MGT]
  cases hb : test_bit (Shared.RFS_xOP_BIT H k idc) rx.op_bitfield
  · simp
  · simp only [Bool.not_true, Bool.false_eq_true, if_false]
    exact (set_bit_of_set hb).symm

theorem interested_iff (H : RedirfsDecls) (rops : Option rfs_ops) (idc : Nat) :
    interested H rops idc = true ↔
      ∃ r, rops = some r ∧ r.arr (H.RFS_IDC_TO_ITYPE idc) (H.RFS_IDC_TO_OP_ID idc) ≠ 0 := by
  cases rops with
  | none => simp [interested]
  | some r => simp [interested]

theorem Shared.Shadow.eq_of_fields {a b : Shared.Shadow} (h1 : a.rhops = b.rhops)
    (h2 : a.op_bitfield = b.op_bitfield) : a = b := by
  cases a
  cases b
  simp_all

theorem RFS_ADD_OP_cases (n : OpsTable) (old : Option OpsTable) (op : Nat) (f : FnPtr)
    (o : Nat) :
    RFS_ADD_OP n old op f o = n o ∨ (o = op ∧ RFS_ADD_OP n old op f o = f) := by
  by_cases ho : o = op
  · subst ho
    by_cases hd : definesOp old o
    · exact Or.inr ⟨rfl, RFS_ADD_OP_defined n old o f hd⟩
    · rw [RFS_ADD_OP_undefined n old o f hd]
      exact Or.inl rfl
  · exact Or.inl (RFS_ADD_OP_other n old f ho)

theorem RFS_ADD_OP_MGT_cases (n : OpsTable) (old : Option OpsTable) (op : Nat) (f : FnPtr)
    (o : Nat) :
    RFS_ADD_OP_MGT n old op f o = n o ∨ (o = op ∧ RFS_ADD_OP_MGT n old op f o = f) := by
  by_cases ho : o = op
  · subst ho
    exact Or.inr ⟨rfl, RFS_ADD_OP_MGT_same n old o f⟩
  · exact Or.inl (RFS_ADD_OP_MGT_other n old f ho)

theorem RFS_ADD_OP_idem (n : OpsTable) (old : Option OpsTable) (op : Nat) (f : FnPtr) :
    RFS_ADD_OP (RFS_ADD_OP n old op f) old op f = RFS_ADD_OP n old op f := by
  by_cases hd : definesOp old op
  · have h1 : RFS_ADD_OP n old op f op = f := RFS_ADD_OP_defined n old op f hd
    generalize RFS_ADD_OP n old op f = m at h1
    unfold RFS_ADD_OP
    cases old with
    | none => rfl
    | some t => simp [h1]
  · rw [RFS_ADD_OP_undefined _ old op f hd]

theorem RFS_REM_OP_idem (n : OpsTable) (old : Option OpsTable) (op : Nat) :
    RFS_REM_OP (RFS_REM_OP n old op) old op = RFS_REM_OP n old op := by
  funext o
  simp only [RFS_REM_OP, setOp]
  split_ifs <;> rfl

/-! ## Shared table: the objects sharing one record -/

theorem Shared.step_rhops (H : RedirfsDecls) (k : ObjKind) (s : Shared.Sys) (c : Call) :
    (Shared.step H k s c).rhops =
      if c.mgt = true then (Shared.RFS_SET_xOP_MGT H k (s.view c.obj) c.idc c.op c.f).rhops
      else (Shared.RFS_SET_xOP H k c.rops (s.view c.obj) c.idc c.op c.f).rhops := by
  unfold Shared.step
  split_ifs <;> rfl

theorem Shared.step_bits (H : RedirfsDecls) (k : ObjKind) (s : Shared.Sys) (c : Call)
    (p : Nat) :
    (Shared.step H k s c).bits p =
      if p = c.obj then
        (if c.mgt = true then
          (Shared.RFS_SET_xOP_MGT H k (s.view c.obj) c.idc c.op c.f).op_bitfield
        else (Shared.RFS_SET_xOP H k c.rops (s.view c.obj) c.idc c.op c.f).op_bitfield)
      else s.bits p := by
  unfold Shared.step
  split_ifs <;> simp_all [Shared.Sys.store]

theorem Shared.step_old (H : RedirfsDecls) (k : ObjKind) (s : Shared.Sys) (c : Call) :
    (Shared.step H k s c).rhops.old = s.rhops.old := by
  rw [Shared.step_rhops, Shared.RFS_SET_xOP_MGT_rhops, Shared.RFS_SET_xOP_rhops]
  split_ifs <;> rfl

theorem Shared.step_shared_bit (H : RedirfsDecls) (k : ObjKind) (s : Shared.Sys) (c : Call)
    (nr : Int) (h : test_bit nr s.rhops.op_bitfield = true) :
    test_bit nr (Shared.step H k s c).rhops.op_bitfield = true := by
  have hset : test_bit nr (set_bit (Shared.RFS_xOP_BIT H k c.idc) s.rhops.op_bitfield) = true := by
    by_cases hn : nr = Shared.RFS_xOP_BIT H k c.idc
    · rw [hn]
      exact test_bit_set_bit_same _ _
    · rw [test_bit_set_bit_other _ hn]
      exact h
  rw [Shared.step_rhops, Shared.RFS_SET_xOP_MGT_rhops, Shared.RFS_SET_xOP_rhops]
  split_ifs
  · exact hset
  · exact h
  · exact hset
  · exact h

theorem Shared.step_new_cases (H : RedirfsDecls) (k : ObjKind) (s : Shared.Sys) (c : Call)
    (o : Nat) :
    (Shared.step H k s c).rhops.new o = s.rhops.new o ∨
      (o = c.op ∧ (Shared.step H k s c).rhops.new o = c.f) := by
  rw [Shared.step_rhops, Shared.RFS_SET_xOP_MGT_rhops, Shared.RFS_SET_xOP_rhops]
  split_ifs
  · exact RFS_ADD_OP_MGT_cases s.rhops.new s.rhops.old c.op c.f o
  · exact Or.inl rfl
  · exact RFS_ADD_OP_cases s.rhops.new s.rhops.old c.op c.f o
  · exact Or.inl rfl

theorem Shared.step_new_undefined (H : RedirfsDecls) (k : ObjKind) (s : Shared.Sys) (c : Call)
    (op : Nat) (hplain : c.mgt = false) (hnd : ¬ definesOp s.rhops.old op) :
    (Shared.step H k s c).rhops.new op = s.rhops.new op := by
  rw [Shared.step_rhops, Shared.RFS_SET_xOP_rhops]
  simp only [hplain, Bool.false_eq_true, if_false]
  split_ifs
  · by_cases ho : op = c.op
    · have hnd2 : ¬ definesOp s.rhops.old c.op := ho ▸ hnd
      rw [ho]
      show RFS_ADD_OP s.rhops.new s.rhops.old c.op c.f c.op = s.rhops.new c.op
      rw [RFS_ADD_OP_undefined _ _ _ _ hnd2]
    · exact RFS_ADD_OP_other s.rhops.new s.rhops.old c.f ho
  · rfl

/-! ## Shared table: the claims on single calls and on sequences -/

/-- Claim C4 (shared table, the bit tracks interest). After `RFS_SET_FOP` (likewise
`RFS_SET_DOP`, `RFS_SET_IOP`, `RFS_SET_AOP`: `k` is the kind) the bit of the
operation in the bit array of the object is set if and only if the Info has an
operation table and `arr[type][op]` is non-zero, whatever the bit was before;
and `RFS_IS_FOP_SET` / `RFS_IS_DOP_SET` / `RFS_IS_IOP_SET` / `RFS_IS_AOP_SET`
returns true exactly in that case. -/
theorem C4_object_bit_tracks_interest (H : RedirfsDecls) (k : ObjKind)
    (rops : Option rfs_ops) (rx : Shared.Shadow) (idc op : Nat) (f : FnPtr) :
    (test_bit (Shared.RFS_xOP_BIT H k idc)
        (Shared.RFS_SET_xOP H k rops rx idc op f).op_bitfield = true ↔
      ∃ r, rops = some r ∧ r.arr (H.RFS_IDC_TO_ITYPE idc) (H.RFS_IDC_TO_OP_ID idc) ≠ 0) ∧
    (Shared.RFS_IS_xOP_SET H k (Shared.RFS_SET_xOP H k rops rx idc op f) idc = true ↔
      ∃ r, rops = some r ∧ r.arr (H.RFS_IDC_TO_ITYPE idc) (H.RFS_IDC_TO_OP_ID idc) ≠ 0) := by
  have key : test_bit (Shared.RFS_xOP_BIT H k idc)
        (Shared.RFS_SET_xOP H k rops rx idc op f).op_bitfield = true ↔
      ∃ r, rops = some r ∧ r.arr (H.RFS_IDC_TO_ITYPE idc) (H.RFS_IDC_TO_OP_ID idc) ≠ 0 := by
    rw [← interested_iff, Shared.RFS_SET_xOP_bits]
    cases interested H rops idc
    · simp [test_bit_clear_bit_same]
    · simp [test_bit_set_bit_same]
  exact ⟨key, key⟩

/-- Claim C6 (shared table, no retraction). Along any finite sequence of
`RFS_SET_xOP` and `RFS_SET_xOP_MGT` calls on any objects sharing one hook record:
a bit of the shared bit array that is set stays set; a shared slot that equals
the trampoline `f` used by the calls naming that slot stays equal to `f`; and a
single call leaves every shared slot either unchanged or equal to its trampoline. -/
theorem C6_shared_state_never_retracts (H : RedirfsDecls) (k : ObjKind) (s : Shared.Sys)
    (cs : List Call) :
    (∀ nr, test_bit nr s.rhops.op_bitfield = true →
      test_bit nr (Shared.run H k s cs).rhops.op_bitfield = true) ∧
    (∀ op f, (∀ c ∈ cs, c.op = op → c.f = f) → s.rhops.new op = f →
      (Shared.run H k s cs).rhops.new op = f) ∧
    (∀ c op, (Shared.step H k s c).rhops.new op = s.rhops.new op ∨
      (Shared.step H k s c).rhops.new op = c.f) := by
  refine ⟨?_, ?_, ?_⟩
  · intro nr
    unfold Shared.run
    induction cs generalizing s with
    | nil => exact id
    | cons c cs ih =>
      intro h
      rw [List.foldl_cons]
      exact ih _ (Shared.step_shared_bit H k s c nr h)
  · intro op f
    unfold Shared.run
    induction cs generalizing s with
    | nil => exact fun _ h => h
    | cons c cs ih =>
      intro hcs h
      rw [List.foldl_cons]
      apply ih
      · exact fun d hd => hcs d (List.mem_cons_of_mem c hd)
      · rcases Shared.step_new_cases H k s c op with h1 | ⟨h1, h2⟩
        · rw [h1]
          exact h
        · rw [h2]
          exact hcs c (List.mem_cons_self c cs) h1.symm
  · intro c op
    rcases Shared.step_new_cases H k s c op with h1 | ⟨_, h2⟩
    · exact Or.inl h1
    · exact Or.inr h2

/-- Witness of claim C6: from the initial state, a management call and two plain
calls on two objects, all for field 1 with trampoline 77. -/
theorem C6_shared_state_never_retracts_witness :
    (Shared.run sampleDecls ObjKind.f
      (Shared.step sampleDecls ObjKind.f (Shared.init (some sampleOld))
        ⟨true, 0, none, 1, 1, 77⟩)
      [⟨false, 1, some (sampleRops 1), 1, 1, 77⟩, ⟨false, 0, none, 1, 1, 77⟩]).rhops.new 1
      = 77 :=
  (C6_shared_state_never_retracts sampleDecls ObjKind.f
      (Shared.step sampleDecls ObjKind.f (Shared.init (some sampleOld))
        ⟨true, 0, none, 1, 1, 77⟩)
      [⟨false, 1, some (sampleRops 1), 1, 1, 77⟩, ⟨false, 0, none, 1, 1, 77⟩]).2.1 1 77
    (by simp) (by decide)

theorem PerObject.private_set_twice (H : RedirfsDecls) (rops : Option rfs_ops)
    (ro : PerObject.Shadow) (idc op : Nat) (f : FnPtr) :
    PerObject.RFS_SET_xOP H rops (PerObject.RFS_SET_xOP H rops ro idc op f) idc op f
      = PerObject.RFS_SET_xOP H rops ro idc op f := by
  cases rops with
  | none =>
    simp only [PerObject.RFS_SET_xOP, RFS_REM_OP_idem]
  | some r =>
    simp only [PerObject.RFS_SET_xOP, RFS_SET_OP]
    split_ifs
    · rw [RFS_ADD_OP_idem]
    · rw [RFS_REM_OP_idem]

theorem Shared.shared_set_twice (H : RedirfsDecls) (k : ObjKind) (rops : Option rfs_ops)
    (rx : Shared.Shadow) (idc op : Nat) (f : FnPtr) :
    Shared.RFS_SET_xOP H k rops (Shared.RFS_SET_xOP H k rops rx idc op f) idc op f
      = Shared.RFS_SET_xOP H k rops rx idc op f := by
  apply Shared.Shadow.eq_of_fields
  · rw [Shared.RFS_SET_xOP_rhops H k rops (Shared.RFS_SET_xOP H k rops rx idc op f)]
    apply if_neg
    rintro ⟨hi, hb⟩
    rw [Shared.RFS_SET_xOP_rhops] at hb
    by_cases h0 : test_bit (Shared.RFS_xOP_BIT H k idc) rx.rhops.op_bitfield = false
    · rw [if_pos ⟨hi, h0⟩] at hb
      have := test_bit_set_bit_same (Shared.RFS_xOP_BIT H k idc) rx.rhops.op_bitfield
      simp_all
    · rw [if_neg (fun h => h0 h.2)] at hb
      exact h0 hb
  · rw [Shared.RFS_SET_xOP_bits H k rops (Shared.RFS_SET_xOP H k rops rx idc op f),
      Shared.RFS_SET_xOP_bits]
    split_ifs
    · exact set_bit_of_set (test_bit_set_bit_same _ _)
    · exact clear_bit_of_clear (test_bit_clear_bit_same _ _)

/-- Claim C7 (idempotence of the hook recomputation, both strategies). With the same
inputs (Info operation table, original table, operation code, field, trampoline)
`RFS_SET_xOP` applied twice in a row leaves exactly the state one application
leaves: with per-object tables the saved pointer and the whole private table,
with the shared table the bit array of the object, the shared bit array and the
whole shared table. -/
theorem C7_set_op_idempotent (H : RedirfsDecls) (k : ObjKind) (rops : Option rfs_ops)
    (idc op : Nat) (f : FnPtr) :
    (∀ ro : PerObject.Shadow,
      PerObject.RFS_SET_xOP H rops (PerObject.RFS_SET_xOP H rops ro idc op f) idc op f
        = PerObject.RFS_SET_xOP H rops ro idc op f) ∧
    (∀ rx : Shared.Shadow,
      Shared.RFS_SET_xOP H k rops (Shared.RFS_SET_xOP H k rops rx idc op f) idc op f
        = Shared.RFS_SET_xOP H k rops rx idc op f) :=
  ⟨fun ro => PerObject.private_set_twice H rops ro idc op f,
   fun rx => Shared.shared_set_twice H k rops rx idc op f⟩

/-- Claim C8 (shared table, unsupported operations are never hooked). If the
original table pointer of the shared hook record is NULL or the original table
does not define operation `op`, then after any finite sequence of `RFS_SET_FOP` /
`RFS_SET_DOP` / `RFS_SET_IOP` / `RFS_SET_AOP` calls (any objects, any interest
counts, any fields and trampolines) the shared slot of `op` holds the value it
had at the start; so it is not the trampoline `f` unless it was at the start. -/
theorem C8_unsupported_never_hooked (H : RedirfsDecls) (k : ObjKind) (s : Shared.Sys)
    (cs : List Call) (op : Nat)
    (hold : s.rhops.old = none ∨ ∃ t, s.rhops.old = some t ∧ t op = NULL)
    (hplain : ∀ c ∈ cs, c.mgt = false) :
    (Shared.run H k s cs).rhops.new op = s.rhops.new op ∧
    ∀ f, s.rhops.new op ≠ f → (Shared.run H k s cs).rhops.new op ≠ f := by
  have hnd : ¬ definesOp s.rhops.old op := by
    rcases hold with h | ⟨t, h, ht⟩
    · simp [definesOp, oldOp, h]
    · simp [definesOp, oldOp, h, ht]
  have key : (Shared.run H k s cs).rhops.new op = s.rhops.new op := by
    clear hold
    unfold Shared.run
    induction cs generalizing s with
    | nil => rfl
    | cons c cs ih =>
      rw [List.foldl_cons, ih (Shared.step H k s c)
        (fun d hd => hplain d (List.mem_cons_of_mem c hd))
        (by rw [Shared.step_old]; exact hnd)]
      exact Shared.step_new_undefined H k s c op (hplain c (List.mem_cons_self c cs)) hnd
  refine ⟨key, fun f hf => ?_⟩
  rw [key]
  exact hf

/-- Witness of claim C8: the sample driver does not define field 5; three calls
naming field 5 on two objects, from the initial state. -/
theorem C8_unsupported_never_hooked_witness :
    (Shared.run sampleDecls ObjKind.d (Shared.init (some sampleOld))
        [⟨false, 0, some (sampleRops 2), 15, 5, 77⟩, ⟨false, 1, some (sampleRops 1), 15, 5, 77⟩,
         ⟨false, 0, none, 15, 5, 77⟩]).rhops.new 5
      = (Shared.init (some sampleOld)).rhops.new 5 ∧
    ∀ f, (Shared.init (some sampleOld)).rhops.new 5 ≠ f →
      (Shared.run sampleDecls ObjKind.d (Shared.init (some sampleOld))
        [⟨false, 0, some (sampleRops 2), 15, 5, 77⟩, ⟨false, 1, some (sampleRops 1), 15, 5, 77⟩,
         ⟨false, 0, none, 15, 5, 77⟩]).rhops.new 5 ≠ f :=
  C8_unsupported_never_hooked sampleDecls ObjKind.d (Shared.init (some sampleOld)) _ 5
    (Or.inr ⟨sampleOld, rfl, by decide⟩) (by simp)

/-! ## The two builds side by side -/

theorem PerObject.RFS_SET_xOP_slot (H : RedirfsDecls) (rops : Option rfs_ops)
    (ro : PerObject.Shadow) (idc op : Nat) (f : FnPtr) :
    (PerObject.RFS_SET_xOP H rops ro idc op f).op_new op =
      if interested H rops idc = true then
        (if definesOp ro.op_old op then f else ro.op_new op)
      else oldOp ro.op_old op := by
  cases rops with
  | none =>
    simp only [PerObject.RFS_SET_xOP, interested, Bool.false_eq_true, if_false]
    exact RFS_REM_OP_same _ _ _
  | some r =>
    simp only [PerObject.RFS_SET_xOP, RFS_SET_OP, interested, bne_iff_ne]
    split_ifs with h1 h2
    · exact RFS_ADD_OP_defined _ _ _ _ h2
    · rw [RFS_ADD_OP_undefined _ _ _ _ h2]
    · exact RFS_REM_OP_same _ _ _

theorem Agree.init (H : RedirfsDecls) (k : ObjKind) (old : Option OpsTable) (idc op : Nat)
    (f : FnPtr) : Agree H k old idc op f (PerObject.init old) (Shared.init old) := by
  refine ⟨fun _ => rfl, rfl, ?_, ?_, ?_⟩
  · intro o h
    simp [Shared.init, test_bit, noBits] at h
  · simp [Shared.init, test_bit, noBits]
  · intro o
    simp [Shared.init, PerObject.init, test_bit, noBits]

theorem Agree.step (H : RedirfsDecls) (k : ObjKind) (old : Option OpsTable) (idc op : Nat)
    (f : FnPtr) (P : PerObject.Sys) (S : Shared.Sys) (c : Call)
    (hc : c.mgt = false ∧ c.idc = idc ∧ c.op = op ∧ c.f = f)
    (h : Agree H k old idc op f P S) :
    Agree H k old idc op f (PerObject.stepSys H P c) (Shared.step H k S c) := by
  obtain ⟨hmgt, hidc, hop, hcf⟩ := hc
  obtain ⟨hPold, hSold, hbits, hnew, hslot⟩ := h
  have hrh : (Shared.step H k S c).rhops =
      if interested H c.rops idc = true ∧
          test_bit (Shared.RFS_xOP_BIT H k idc) S.rhops.op_bitfield = false then
        { old := S.rhops.old
          new := RFS_ADD_OP S.rhops.new S.rhops.old op f
          op_bitfield := set_bit (Shared.RFS_xOP_BIT H k idc) S.rhops.op_bitfield }
      else S.rhops := by
    rw [Shared.step_rhops, Shared.RFS_SET_xOP_rhops, hmgt, hidc, hop, hcf]
    simp [Shared.Sys.view]
  have hbt : ∀ p, (Shared.step H k S c).bits p =
      if p = c.obj then
        (if interested H c.rops idc = true then
          set_bit (Shared.RFS_xOP_BIT H k idc) (S.bits c.obj)
        else clear_bit (Shared.RFS_xOP_BIT H k idc) (S.bits c.obj))
      else S.bits p := by
    intro p
    rw [Shared.step_bits, Shared.RFS_SET_xOP_bits, hmgt, hidc]
    simp [Shared.Sys.view]
  have hper : ∀ p, (PerObject.stepSys H P c p).op_new op =
      if p = c.obj then
        (if interested H c.rops idc = true then
          (if definesOp old op then f else (P p).op_new op)
        else oldOp old op)
      else (P p).op_new op := by
    intro p
    unfold PerObject.stepSys PerObject.step
    by_cases hp : p = c.obj
    · simp only [hp, if_true, hmgt, Bool.false_eq_true, if_false, hidc, hop, hcf]
      rw [PerObject.RFS_SET_xOP_slot, hPold]
    · simp only [hp, if_false]
  refine ⟨?_, ?_, ?_, ?_, ?_⟩
  · intro o
    unfold PerObject.stepSys
    split_ifs
    · rw [PerObject.step_op_old]
      exact hPold o
    · exact hPold o
  · rw [Shared.step_old]
    exact hSold
  · intro o
    rw [hrh]
    by_cases hi : interested H c.rops idc = true
    · intro _
      by_cases hb : test_bit (Shared.RFS_xOP_BIT H k idc) S.rhops.op_bitfield = false
      · rw [if_pos ⟨hi, hb⟩]
        exact test_bit_set_bit_same _ _
      · rw [if_neg (fun h => hb h.2)]
        simpa using hb
    · rw [if_neg (fun h => hi h.1), hbt]
      by_cases ho : o = c.obj
      · rw [if_pos ho, if_neg hi, test_bit_clear_bit_same]
        intro h
        exact absurd h (by decide)
      · rw [if_neg ho]
        exact hbits o
  · rw [hrh]
    by_cases hi : interested H c.rops idc = true
    · by_cases hb : test_bit (Shared.RFS_xOP_BIT H k idc) S.rhops.op_bitfield = false
      · rw [if_pos ⟨hi, hb⟩]
        simp only [test_bit_set_bit_same, true_and]
        rw [hb] at hnew
        simp only [Bool.false_eq_true, false_and, if_false] at hnew
        by_cases hd : definesOp old op
        · rw [if_pos hd]
          exact RFS_ADD_OP_defined _ _ _ _ (hSold ▸ hd)
        · rw [if_neg hd, RFS_ADD_OP_undefined _ _ _ _ (hSold ▸ hd)]
          exact hnew
      · rw [if_neg (fun h => hb h.2)]
        exact hnew
    · rw [if_neg (fun h => hi h.1)]
      exact hnew
  · intro o
    rw [hper, hbt]
    by_cases ho : o = c.obj
    · simp only [ho, if_true]
      by_cases hi : interested H c.rops idc = true
      · simp only [hi, if_true, test_bit_set_bit_same, true_and]
        by_cases hd : definesOp old op
        · simp only [hd, if_true]
        · simp only [hd, if_false]
          have := hslot c.obj
          simp only [hd, and_false, if_false] at this
          exact this
      · simp only [hi, if_false, test_bit_clear_bit_same, Bool.false_eq_true, false_and]
    · simp only [ho, if_false]
      exact hslot o

theorem Agree.run (H : RedirfsDecls) (k : ObjKind) (old : Option OpsTable) (idc op : Nat)
    (f : FnPtr) (cs : List Call)
    (hcs : ∀ c ∈ cs, c.mgt = false ∧ c.idc = idc ∧ c.op = op ∧ c.f = f)
    (P : PerObject.Sys) (S : Shared.Sys) (h : Agree H k old idc op f P S) :
    Agree H k old idc op f (PerObject.runSys H P cs) (Shared.run H k S cs) := by
  unfold PerObject.runSys Shared.run
  induction cs generalizing P S with
  | nil => exact h
  | cons c cs ih =>
    rw [List.foldl_cons, List.foldl_cons]
    exact ih (fun d hd => hcs d (List.mem_cons_of_mem c hd)) _ _
      (Agree.step H k old idc op f P S c (hcs c (List.mem_cons_self c cs)) h)

/-- Claim C5 (the two hook strategies intercept the same objects). Start the
per-object build with every private table a copy of the original table and the
shared-table build with all bits clear and the shared table a copy of the
original table; apply the same finite sequence of plain `RFS_SET_xOP` calls for
one operation (each naming an object and the Info table of that object at the
time) to both, with a trampoline `f` different from the original pointer. Then
for every object the private slot equals `f` if and only if, in the shared
build, `RFS_IS_xOP_SET` holds for the object and the shared slot equals `f`; and
a private slot that is not `f` holds the original pointer. -/
theorem C5_strategies_intercept_same_objects (H : RedirfsDecls) (k : ObjKind)
    (old : Option OpsTable) (idc op : Nat) (f : FnPtr) (cs : List Call) (o : Nat)
    (hcs : ∀ c ∈ cs, c.mgt = false ∧ c.idc = idc ∧ c.op = op ∧ c.f = f)
    (hf : f ≠ oldOp old op) :
    ((PerObject.runSys H (PerObject.init old) cs o).op_new op = f ↔
      (Shared.RFS_IS_xOP_SET H k ((Shared.run H k (Shared.init old) cs).view o) idc = true ∧
        (Shared.run H k (Shared.init old) cs).rhops.new op = f)) ∧
    ((PerObject.runSys H (PerObject.init old) cs o).op_new op ≠ f →
      (PerObject.runSys H (PerObject.init old) cs o).op_new op = oldOp old op) := by
  obtain ⟨_, _, hbits, hnew, hslot⟩ :=
    Agree.run H k old idc op f cs hcs _ _ (Agree.init H k old idc op f)
  have hs := hslot o
  have hb := hbits o
  simp only [Shared.RFS_IS_xOP_SET, Shared.Sys.view]
  by_cases h1 : test_bit (Shared.RFS_xOP_BIT H k idc)
      ((Shared.run H k (Shared.init old) cs).bits o) = true
  · have h2 := hb h1
    by_cases hd : definesOp old op
    · rw [hs, hnew]
      simp [h1, h2, hd]
    · rw [hs, hnew]
      simp [h1, h2, hd, Ne.symm hf]
  · rw [hs]
    simp [h1, Ne.symm hf]

/-- Witness of claim C5: three objects, five calls for field 1 of the sample driver. -/
theorem C5_strategies_intercept_same_objects_witness :
    ((PerObject.runSys sampleDecls (PerObject.init (some sampleOld))
        [⟨false, 0, some (sampleRops 1), 1, 1, 77⟩, ⟨false, 1, some (sampleRops 2), 1, 1, 77⟩,
         ⟨false, 0, some (sampleRops 0), 1, 1, 77⟩, ⟨false, 2, none, 1, 1, 77⟩,
         ⟨false, 1, some (sampleRops 3), 1, 1, 77⟩] 1).op_new 1 = 77 ↔
      (Shared.RFS_IS_xOP_SET sampleDecls ObjKind.f
          ((Shared.run sampleDecls ObjKind.f (Shared.init (some sampleOld))
            [⟨false, 0, some (sampleRops 1), 1, 1, 77⟩, ⟨false, 1, some (sampleRops 2), 1, 1, 77⟩,
             ⟨false, 0, some (sampleRops 0), 1, 1, 77⟩, ⟨false, 2, none, 1, 1, 77⟩,
             ⟨false, 1, some (sampleRops 3), 1, 1, 77⟩]).view 1) 1 = true ∧
        (Shared.run sampleDecls ObjKind.f (Shared.init (some sampleOld))
            [⟨false, 0, some (sampleRops 1), 1, 1, 77⟩, ⟨false, 1, some (sampleRops 2), 1, 1, 77⟩,
             ⟨false, 0, some (sampleRops 0), 1, 1, 77⟩, ⟨false, 2, none, 1, 1, 77⟩,
             ⟨false, 1, some (sampleRops 3), 1, 1, 77⟩]).rhops.new 1 = 77)) :=
  (C5_strategies_intercept_same_objects sampleDecls ObjKind.f (some sampleOld) 1 1 77
    [⟨false, 0, some (sampleRops 1), 1, 1, 77⟩, ⟨false, 1, some (sampleRops 2), 1, 1, 77⟩,
     ⟨false, 0, some (sampleRops 0), 1, 1, 77⟩, ⟨false, 2, none, 1, 1, 77⟩,
     ⟨false, 1, some (sampleRops 3), 1, 1, 77⟩] 1 (by simp) (by decide)).1

/-! ## The management hook of the inode table in the two builds -/

/-- Counterexample to claim C9: an inode whose Info has no operation table
(`rinfo->rops` NULL), the sample driver table, field 1, trampoline 77. After one
`RFS_SET_IOP_MGT` from the initial states the shared build routes the operation
to the trampoline (bit set, shared slot 77) while the private slot of the
per-object build holds the driver function 12. -/
theorem C9_mgt_builds_disagree :
    ¬ ((PerObject.RFS_SET_IOP_MGT sampleDecls none (PerObject.init (some sampleOld) 0)
          21 1 77).op_new 1 = 77 ↔
        (Shared.RFS_IS_xOP_SET sampleDecls ObjKind.i
            (Shared.RFS_SET_IOP_MGT sampleDecls ((Shared.init (some sampleOld)).view 0) 21 1 77)
            21 = true ∧
          (Shared.RFS_SET_IOP_MGT sampleDecls ((Shared.init (some sampleOld)).view 0)
            21 1 77).rhops.new 1 = 77)) := by
  decide

/-- Claim C9, amended. After one `RFS_SET_IOP_MGT` call from the respective initial
states, with a trampoline `f` different from the original pointer: the shared
build always routes the operation to the trampoline (the bit of the object is
set and the shared slot equals `f`); the per-object build routes it to the
trampoline exactly when the Info operation table is non-NULL and the original
inode-operations table defines the operation, and its private slot holds the
original pointer otherwise. So the two builds agree exactly in that case. -/
theorem C9_mgt_builds_agree_iff (H : RedirfsDecls) (old : Option OpsTable)
    (rops : Option rfs_ops) (idc op : Nat) (f : FnPtr) (o : Nat)
    (hf : f ≠ oldOp old op) :
    (Shared.RFS_IS_xOP_SET H ObjKind.i
        (Shared.RFS_SET_IOP_MGT H ((Shared.init old).view o) idc op f) idc = true ∧
      (Shared.RFS_SET_IOP_MGT H ((Shared.init old).view o) idc op f).rhops.new op = f) ∧
    ((PerObject.RFS_SET_IOP_MGT H rops (PerObject.init old o) idc op f).op_new op = f ↔
      (rops ≠ none ∧ definesOp old op)) ∧
    ((PerObject.RFS_SET_IOP_MGT H rops (PerObject.init old o) idc op f).op_new op ≠ f →
      (PerObject.RFS_SET_IOP_MGT H rops (PerObject.init old o) idc op f).op_new op
        = oldOp old op) := by
  have hper : (PerObject.RFS_SET_IOP_MGT H rops (PerObject.init old o) idc op f).op_new op =
      if rops.isSome = true ∧ definesOp old op then f else oldOp old op := by
    cases rops with
    | none =>
      simp only [PerObject.RFS_SET_IOP_MGT, PerObject.init, Option.isSome_none,
        Bool.false_eq_true, false_and, if_false]
      exact RFS_REM_OP_same _ _ _
    | some r =>
      simp only [PerObject.RFS_SET_IOP_MGT, PerObject.init, Option.isSome_some, true_and]
      by_cases hd : definesOp old op
      · rw [if_pos hd]
        exact RFS_ADD_OP_defined _ _ _ _ hd
      · rw [if_neg hd, RFS_ADD_OP_undefined _ _ _ _ hd]
  have hsome : rops ≠ none ↔ rops.isSome = true := by
    cases rops <;> simp
  refine ⟨⟨?_, ?_⟩, ?_, ?_⟩
  · unfold Shared.RFS_IS_xOP_SET Shared.RFS_SET_IOP_MGT
    rw [Shared.RFS_SET_xOP_MGT_bits]
    exact test_bit_set_bit_same _ _
  · unfold Shared.RFS_SET_IOP_MGT
    rw [Shared.RFS_SET_xOP_MGT_rhops]
    simp only [Shared.Sys.view, Shared.init, test_bit, noBits, if_true]
    exact RFS_ADD_OP_MGT_same _ _ _ _
  · rw [hper, hsome]
    by_cases hc : rops.isSome = true ∧ definesOp old op
    · simp [hc]
    · simp only [hc, if_false, iff_false]
      exact Ne.symm hf
  · rw [hper]
    intro h
    by_cases hc : rops.isSome = true ∧ definesOp old op
    · rw [if_pos hc] at h
      exact absurd rfl h
    · rw [if_neg hc]

/-- Witness of claim C9, amended: an Info with an operation table, field 1 of the
sample driver table. -/
theorem C9_mgt_builds_agree_iff_witness :
    (PerObject.RFS_SET_IOP_MGT sampleDecls (some (sampleRops 0))
        (PerObject.init (some sampleOld) 0) 21 1 77).op_new 1 = 77 ↔
      ((some (sampleRops 0) : Option rfs_ops) ≠ none ∧ definesOp (some sampleOld) 1) :=
  (C9_mgt_builds_agree_iff sampleDecls (some sampleOld) (some (sampleRops 0)) 21 1 77 0
    (by decide)).2.1

/-! ## Dispatch core: the nesting law -/

theorem Dispatch.precall_from_cons {σ : Type} (itype op : Nat) (flt : Dispatch.rfs_flt σ)
    (fs : List (Dispatch.rfs_flt σ)) (idx : Nat) (st : Dispatch.CallState σ) :
    Dispatch.precall_from itype op (flt :: fs) idx st =
      if flt.active then
        match (flt.cbs itype op).pre_cb with
        | none => Dispatch.precall_from itype op fs (idx + 1) st
        | some cb =>
          match (cb st.rargs).1 with
          | Dispatch.redirfs_rv.STOP =>
            (true, { rcont := { st.rcont with idx := (idx : Int) }
                     rargs := (cb st.rargs).2
                     log := st.log ++ [Dispatch.Event.pre idx] })
          | Dispatch.redirfs_rv.CONTINUE =>
            Dispatch.precall_from itype op fs (idx + 1)
              { st with rargs := (cb st.rargs).2, log := st.log ++ [Dispatch.Event.pre idx] }
      else Dispatch.precall_from itype op fs (idx + 1) st := by
  rw [Dispatch.precall_from]

theorem Dispatch.precall_from_stop_here {σ : Type} (itype op : Nat) (flt : Dispatch.rfs_flt σ)
    (fs : List (Dispatch.rfs_flt σ)) (idx : Nat) (st : Dispatch.CallState σ)
    (h : Dispatch.preRv itype op flt st.rargs = Dispatch.redirfs_rv.STOP) :
    Dispatch.precall_from itype op (flt :: fs) idx st =
      (true, { rcont := { st.rcont with idx := (idx : Int) }
               rargs := Dispatch.preNext itype op st.rargs flt
               log := st.log ++ [Dispatch.Event.pre idx] }) := by
  unfold Dispatch.preRv at h
  rw [Dispatch.precall_from_cons]
  unfold Dispatch.preNext
  cases ha : flt.active
  · simp [ha] at h
  · cases hp : (flt.cbs itype op).pre_cb with
    | none => simp [ha, hp] at h
    | some cb =>
      simp only [ha, hp, if_true] at h
      simp [h]

theorem Dispatch.precall_from_continue {σ : Type} (itype op : Nat) (flt : Dispatch.rfs_flt σ)
    (fs : List (Dispatch.rfs_flt σ)) (idx : Nat) (st : Dispatch.CallState σ)
    (h : Dispatch.preRv itype op flt st.rargs = Dispatch.redirfs_rv.CONTINUE) :
    ∃ st1 : Dispatch.CallState σ,
      Dispatch.precall_from itype op (flt :: fs) idx st
        = Dispatch.precall_from itype op fs (idx + 1) st1 ∧
      st1.rargs = Dispatch.preNext itype op st.rargs flt ∧
      ∃ l, st1.log = st.log ++ l ∧ ∀ e ∈ l, ∃ j, e = Dispatch.Event.pre j := by
  unfold Dispatch.preRv at h
  rw [Dispatch.precall_from_cons]
  unfold Dispatch.preNext
  cases ha : flt.active
  · exact ⟨st, by simp, by simp, [], by simp, by simp⟩
  · cases hp : (flt.cbs itype op).pre_cb with
    | none => exact ⟨st, by simp, by simp, [], by simp, by simp⟩
    | some cb =>
      simp only [ha, hp, if_true] at h
      refine ⟨{ st with rargs := (cb st.rargs).2, log := st.log ++ [Dispatch.Event.pre idx] },
        by simp [h], by simp, [Dispatch.Event.pre idx], rfl, ?_⟩
      intro e he
      exact ⟨idx, by simpa using he⟩

theorem Dispatch.FirstStop_zero {σ : Type} (itype op : Nat) (flt : Dispatch.rfs_flt σ)
    (fs : List (Dispatch.rfs_flt σ)) (a : σ)
    (h : Dispatch.FirstStop itype op (flt :: fs) a 0) :
    Dispatch.preRv itype op flt a = Dispatch.redirfs_rv.STOP := by
  obtain ⟨⟨g, hg, hrv⟩, _⟩ := h
  simp only [List.getElem?_cons_zero, Option.some.injEq] at hg
  subst hg
  simpa [Dispatch.preArgs] using hrv

theorem Dispatch.FirstStop_succ {σ : Type} (itype op : Nat) (flt : Dispatch.rfs_flt σ)
    (fs : List (Dispatch.rfs_flt σ)) (a : σ) (i : Nat)
    (h : Dispatch.FirstStop itype op (flt :: fs) a (i + 1)) :
    Dispatch.preRv itype op flt a = Dispatch.redirfs_rv.CONTINUE ∧
      Dispatch.FirstStop itype op fs (Dispatch.preNext itype op a flt) i := by
  obtain ⟨⟨g, hg, hrv⟩, hbefore⟩ := h
  refine ⟨?_, ⟨g, ?_, ?_⟩, ?_⟩
  · have := hbefore 0 (Nat.succ_pos i) flt (by simp)
    simpa [Dispatch.preArgs] using this
  · simpa using hg
  · simpa [Dispatch.preArgs] using hrv
  · intro j hj g2 hg2
    have := hbefore (j + 1) (Nat.succ_lt_succ hj) g2 (by simpa using hg2)
    simpa [Dispatch.preArgs] using this

/-- The pre-phase stops at the first filter that returns `STOP`, with the cursor
on it, having invoked pre-callbacks only. -/
theorem Dispatch.precall_from_first_stop {σ : Type} (itype op : Nat)
    (fs : List (Dispatch.rfs_flt σ)) (idx : Nat) (st : Dispatch.CallState σ) (i : Nat)
    (h : Dispatch.FirstStop itype op fs st.rargs i) :
    (Dispatch.precall_from itype op fs idx st).1 = true ∧
    (Dispatch.precall_from itype op fs idx st).2.rcont.idx = ((idx + i : Nat) : Int) ∧
    ∃ l, (Dispatch.precall_from itype op fs idx st).2.log = st.log ++ l ∧
      ∀ e ∈ l, ∃ j, e = Dispatch.Event.pre j := by
  induction fs generalizing idx st i with
  | nil =>
    obtain ⟨⟨g, hg, _⟩, _⟩ := h
    simp at hg
  | cons flt fs ih =>
    cases i with
    | zero =>
      rw [Dispatch.precall_from_stop_here itype op flt fs idx st
        (Dispatch.FirstStop_zero itype op flt fs st.rargs h)]
      refine ⟨rfl, rfl, [Dispatch.Event.pre idx], rfl, ?_⟩
      intro e he
      exact ⟨idx, by simpa using he⟩
    | succ i =>
      obtain ⟨hc, hrest⟩ := Dispatch.FirstStop_succ itype op flt fs st.rargs i h
      obtain ⟨st1, heq, hargs, l1, hl1, hpre1⟩ :=
        Dispatch.precall_from_continue itype op flt fs idx st hc
      rw [heq]
      rw [← hargs] at hrest
      obtain ⟨h1, h2, l2, hl2, hpre2⟩ := ih (idx + 1) st1 i hrest
      refine ⟨h1, ?_, l1 ++ l2, ?_, ?_⟩
      · rw [h2]
        congr 1
        omega
      · rw [hl2, hl1, List.append_assoc]
      · intro e he
        rcases List.mem_append.mp he with he | he
        · exact hpre1 e he
        · exact hpre2 e he

theorem Dispatch.postEvents_succ {σ : Type} (itype op : Nat)
    (rchain : List (Dispatch.rfs_flt σ)) (n : Nat) :
    Dispatch.postEvents itype op rchain (n + 1) =
      (if Dispatch.runsPost itype op rchain n = true then [Dispatch.Event.post n] else []) ++
        Dispatch.postEvents itype op rchain n := by
  unfold Dispatch.postEvents
  rw [List.range_succ, List.reverse_append, List.reverse_singleton, List.singleton_append,
    List.filter_cons]
  split_ifs <;> simp

/-- The post-phase over the indices `n - 1`, ..., `0` invokes exactly the
post-callbacks of the active filters that have one, highest index first. -/
theorem Dispatch.postcall_from_log {σ : Type} (itype op : Nat)
    (rchain : List (Dispatch.rfs_flt σ)) (n : Nat) (st : Dispatch.CallState σ) :
    (Dispatch.postcall_from itype op rchain n st).log =
      st.log ++ Dispatch.postEvents itype op rchain n := by
  induction n generalizing st with
  | zero => simp [Dispatch.postcall_from, Dispatch.postEvents]
  | succ n ih =>
    rw [Dispatch.postEvents_succ]
    unfold Dispatch.postcall_from Dispatch.runsPost
    cases hg : rchain[n]? with
    | none => simp [ih]
    | some flt =>
      cases ha : flt.active
      · simp [ih, ha]
      · cases hp : (flt.cbs itype op).post_cb with
        | none => simp [ih, ha, hp]
        | some cb => simp [ih, ha, hp]

theorem Dispatch.postEvents_filter {σ : Type} (itype op : Nat)
    (rchain : List (Dispatch.rfs_flt σ)) (n : Nat) :
    (Dispatch.postEvents itype op rchain n).filter Dispatch.Event.isPost
      = Dispatch.postEvents itype op rchain n := by
  apply List.filter_eq_self.mpr
  intro e he
  unfold Dispatch.postEvents at he
  obtain ⟨j, _, rfl⟩ := List.mem_map.mp he
  rfl

theorem Dispatch.pre_only_filter (l : List Dispatch.Event)
    (h : ∀ e ∈ l, ∃ j, e = Dispatch.Event.pre j) :
    l.filter Dispatch.Event.isPost = [] ∧ Dispatch.Event.real ∉ l := by
  constructor
  · apply List.filter_eq_nil_iff.mpr
    intro e he
    obtain ⟨j, rfl⟩ := h e he
    simp [Dispatch.Event.isPost]
  · intro hr
    obtain ⟨j, hj⟩ := h _ hr
    cases hj

/-- Claim C10 (dispatch nesting law). For every chain of filters and every index
`i`, if the pre-callback of filter `i` is the first to return `STOP`, then
`rfs_precall_flts` reports the stop, the real underlying operation is not
invoked, and `rfs_postcall_flts` invokes exactly the post-callbacks of the
filters at indices `0..i` (those that are active and have one), in the order
`i`, ..., `0`, and no post-callback of a later filter; when each of these
filters has a post-callback to run, the invocations are exactly
`post i`, ..., `post 0`. -/
theorem C10_dispatch_nesting_law {σ : Type} (itype op : Nat) (invoke_real : σ → σ)
    (rchain : List (Dispatch.rfs_flt σ)) (a : σ) (i : Nat)
    (h : Dispatch.FirstStop itype op rchain a i) :
    (Dispatch.rfs_precall_flts itype op rchain ⟨⟨0, 0⟩, a, []⟩).1 = true ∧
    Dispatch.Event.real ∉ (Dispatch.dispatch itype op invoke_real rchain a).log ∧
    (Dispatch.dispatch itype op invoke_real rchain a).log.filter Dispatch.Event.isPost
      = ((List.range (i + 1)).reverse.filter (Dispatch.runsPost itype op rchain)).map
          Dispatch.Event.post ∧
    ((∀ j, j ≤ i → Dispatch.runsPost itype op rchain j = true) →
      (Dispatch.dispatch itype op invoke_real rchain a).log.filter Dispatch.Event.isPost
        = (List.range (i + 1)).reverse.map Dispatch.Event.post) := by
  obtain ⟨h1, h2, l, hl, hpre⟩ :=
    Dispatch.precall_from_first_stop itype op rchain 0 ⟨⟨0, 0⟩, a, []⟩ i h
  obtain ⟨hnil, hreal⟩ := Dispatch.pre_only_filter l hpre
  have hlog : (Dispatch.dispatch itype op invoke_real rchain a).log
      = l ++ Dispatch.postEvents itype op rchain (i + 1) := by
    unfold Dispatch.dispatch Dispatch.rfs_precall_flts
    simp only [h1, if_true]
    unfold Dispatch.rfs_postcall_flts
    rw [Dispatch.postcall_from_log, h2, hl]
    simp
  have hposts : (Dispatch.dispatch itype op invoke_real rchain a).log.filter
      Dispatch.Event.isPost = Dispatch.postEvents itype op rchain (i + 1) := by
    rw [hlog, List.filter_append, hnil, Dispatch.postEvents_filter, List.nil_append]
  refine ⟨h1, ?_, hposts, ?_⟩
  · rw [hlog]
    intro hmem
    rcases List.mem_append.mp hmem with hm | hm
    · exact hreal hm
    · unfold Dispatch.postEvents at hm
      obtain ⟨j, _, hj⟩ := List.mem_map.mp hm
      cases hj
  · intro hall
    rw [hposts]
    unfold Dispatch.postEvents
    congr 1
    apply List.filter_eq_self.mpr
    intro j hj
    have : j < i + 1 := by simpa using hj
    exact hall j (by omega)

/-- Witness of claim C10: in the sample chain the third filter (index 2) is the
first to stop; the post-callbacks run are those of indices 2, 1, 0. -/
theorem C10_dispatch_nesting_law_witness :
    (Dispatch.dispatch 0 0 (fun a => a + 1000) Dispatch.sampleChain 0).log.filter
        Dispatch.Event.isPost
      = [Dispatch.Event.post 2, Dispatch.Event.post 1, Dispatch.Event.post 0] :=
  (C10_dispatch_nesting_law 0 0 (fun a => a + 1000) Dispatch.sampleChain 0 2
    ⟨⟨Dispatch.sampleFlt Dispatch.redirfs_rv.STOP 3, rfl, rfl⟩, by
      intro j hj g hg
      interval_cases j <;> simp [Dispatch.sampleChain] at hg <;> subst hg <;> rfl⟩).2.2.2
    (by
      intro j hj
      interval_cases j <;> rfl)

/-! ## Shared table: what a plain call may write -/

/-- Claim C11 (shared table, one-time installation and untouched shared state). A
call of `RFS_SET_FOP` / `RFS_SET_DOP` / `RFS_SET_IOP` / `RFS_SET_AOP` changes a slot
of the shared table only when a filter is interested in the operation and the
bit of the operation in the shared bit array was clear before the call, and in
that case the shared bit is set after the call; when the shared bit was already
set the shared record (table and bit array) is left as it was; when no filter
is interested the shared record is left as it was and the call changes at most
the bit of the operation in the bit array of the object. -/
theorem C11_shared_written_once (H : RedirfsDecls) (k : ObjKind) (rops : Option rfs_ops)
    (rx : Shared.Shadow) (idc op : Nat) (f : FnPtr) :
    (∀ o, (Shared.RFS_SET_xOP H k rops rx idc op f).rhops.new o ≠ rx.rhops.new o →
      interested H rops idc = true ∧
        test_bit (Shared.RFS_xOP_BIT H k idc) rx.rhops.op_bitfield = false) ∧
    (interested H rops idc = true →
      test_bit (Shared.RFS_xOP_BIT H k idc) rx.rhops.op_bitfield = false →
      test_bit (Shared.RFS_xOP_BIT H k idc)
        (Shared.RFS_SET_xOP H k rops rx idc op f).rhops.op_bitfield = true) ∧
    (test_bit (Shared.RFS_xOP_BIT H k idc) rx.rhops.op_bitfield = true →
      (Shared.RFS_SET_xOP H k rops rx idc op f).rhops = rx.rhops) ∧
    (interested H rops idc = false →
      (Shared.RFS_SET_xOP H k rops rx idc op f).rhops = rx.rhops ∧
      ∀ m, m ≠ Shared.RFS_xOP_BIT H k idc →
        test_bit m (Shared.RFS_SET_xOP H k rops rx idc op f).op_bitfield
          = test_bit m rx.op_bitfield) := by
  refine ⟨?_, ?_, ?_, ?_⟩
  · intro o hne
    rw [Shared.RFS_SET_xOP_rhops] at hne
    by_cases hc : interested H rops idc = true ∧
        test_bit (Shared.RFS_xOP_BIT H k idc) rx.rhops.op_bitfield = false
    · exact hc
    · rw [if_neg hc] at hne
      exact absurd rfl hne
  · intro hi hb
    rw [Shared.RFS_SET_xOP_rhops, if_pos ⟨hi, hb⟩]
    exact test_bit_set_bit_same _ _
  · intro hb
    rw [Shared.RFS_SET_xOP_rhops]
    apply if_neg
    rintro ⟨_, h0⟩
    rw [hb] at h0
    exact absurd h0 (by decide)
  · intro hi
    constructor
    · rw [Shared.RFS_SET_xOP_rhops]
      apply if_neg
      rintro ⟨h1, _⟩
      rw [hi] at h1
      exact absurd h1 (by decide)
    · intro m hm
      rw [Shared.RFS_SET_xOP_bits, hi]
      simp only [Bool.false_eq_true, if_false]
      exact test_bit_clear_bit_other _ hm

/-- Witness of claim C11: object whose bit of field 1 is set, shared bit set and
slot hooked; a call with no interested filter leaves the shared record alone. -/
theorem C11_shared_written_once_witness :
    (Shared.RFS_SET_xOP sampleDecls ObjKind.f (some (sampleRops 0))
        ((Shared.step sampleDecls ObjKind.f (Shared.init (some sampleOld))
          ⟨false, 0, some (sampleRops 1), 1, 1, 77⟩).view 0) 1 1 77).rhops
      = ((Shared.step sampleDecls ObjKind.f (Shared.init (some sampleOld))
          ⟨false, 0, some (sampleRops 1), 1, 1, 77⟩).view 0).rhops :=
  ((C11_shared_written_once sampleDecls ObjKind.f (some (sampleRops 0))
      ((Shared.step sampleDecls ObjKind.f (Shared.init (some sampleOld))
        ⟨false, 0, some (sampleRops 1), 1, 1, 77⟩).view 0) 1 1 77).2.2.2 (by decide)).1

/-! ## `RFS_SET_OP` and the previous content of the slot -/

/-- Counterexample to claim C12: one callback registered, a driver table that
does not define field 5, trampoline 77. `RFS_SET_OP` leaves the slot as it finds
it, so a slot that held 0 ends as 0 and a slot that held 99 ends as 99. -/
theorem C12_previous_content_survives :
    ¬ (RFS_SET_OP sampleDecls (sampleRops 1).arr 5 (fun _ => 0) (some sampleOld) 5 77 5
        = RFS_SET_OP sampleDecls (sampleRops 1).arr 5 (fun _ => 99) (some sampleOld) 5 77 5) := by
  decide

/-- Claim C12, amended. For every interest count, original table pointer,
original table content and trampoline `f`: when the count is 0 or the original
table defines the operation, the value of the private slot after `RFS_SET_OP` is
determined by those inputs alone (the original pointer for a zero count, `f`
otherwise), so two runs that differ only in the previous content of the slot
end with the same slot value; when the count is not 0 and the original table
pointer is NULL or the original table does not define the operation,
`RFS_SET_OP` leaves the slot as it was. -/
theorem C12_set_op_recomputation (H : RedirfsDecls) (arr : Nat → Nat → Nat) (idc : Nat)
    (ops_old : Option OpsTable) (op : Nat) (f : FnPtr) :
    (arr (H.RFS_IDC_TO_ITYPE idc) (H.RFS_IDC_TO_OP_ID idc) = 0 ∨ definesOp ops_old op →
      ∀ n1 n2 : OpsTable,
        RFS_SET_OP H arr idc n1 ops_old op f op = RFS_SET_OP H arr idc n2 ops_old op f op ∧
        RFS_SET_OP H arr idc n1 ops_old op f op =
          if arr (H.RFS_IDC_TO_ITYPE idc) (H.RFS_IDC_TO_OP_ID idc) = 0 then oldOp ops_old op
          else f) ∧
    (arr (H.RFS_IDC_TO_ITYPE idc) (H.RFS_IDC_TO_OP_ID idc) ≠ 0 → ¬ definesOp ops_old op →
      ∀ n : OpsTable, RFS_SET_OP H arr idc n ops_old op f op = n op) := by
  have hval : arr (H.RFS_IDC_TO_ITYPE idc) (H.RFS_IDC_TO_OP_ID idc) = 0 ∨ definesOp ops_old op →
      ∀ n : OpsTable, RFS_SET_OP H arr idc n ops_old op f op =
        if arr (H.RFS_IDC_TO_ITYPE idc) (H.RFS_IDC_TO_OP_ID idc) = 0 then oldOp ops_old op
        else f := by
    intro h n
    unfold RFS_SET_OP
    by_cases hz : arr (H.RFS_IDC_TO_ITYPE idc) (H.RFS_IDC_TO_OP_ID idc) = 0
    · simp only [hz, ne_eq, not_true_eq_false, if_false, if_true]
      exact RFS_REM_OP_same _ _ _
    · simp only [hz, ne_eq, not_false_eq_true, if_true, if_false]
      rcases h with h | h
      · exact absurd h hz
      · exact RFS_ADD_OP_defined _ _ _ _ h
  refine ⟨fun h n1 n2 => ⟨?_, hval h n1⟩, ?_⟩
  · rw [hval h n1, hval h n2]
  · intro hnz hnd n
    unfold RFS_SET_OP
    rw [if_pos hnz, RFS_ADD_OP_undefined _ _ _ _ hnd]

/-- Witness of claim C12, amended: field 1 of the sample driver table, two
callbacks registered, a slot that held 0 and a slot that held 99. -/
theorem C12_set_op_recomputation_witness :
    RFS_SET_OP sampleDecls (sampleRops 2).arr 1 (fun _ => 0) (some sampleOld) 1 77 1
      = RFS_SET_OP sampleDecls (sampleRops 2).arr 1 (fun _ => 99) (some sampleOld) 1 77 1 :=
  ((C12_set_op_recomputation sampleDecls (sampleRops 2).arr 1 (some sampleOld) 1 77).1
    (Or.inr (by decide)) (fun _ => 0) (fun _ => 99)).1

/-! ## Interest counters -/

theorem callbacksOf_le_two {σ : Type} (flt : Dispatch.rfs_flt σ) (itype op : Nat) :
    callbacksOf flt itype op ≤ 2 := by
  unfold callbacksOf
  split_ifs <;> omega

theorem callbacksOf_pos_iff {σ : Type} (flt : Dispatch.rfs_flt σ) (itype op : Nat) :
    callbacksOf flt itype op ≠ 0 ↔
      ((flt.cbs itype op).pre_cb.isSome = true ∨ (flt.cbs itype op).post_cb.isSome = true) := by
  unfold callbacksOf
  by_cases h1 : (flt.cbs itype op).pre_cb.isSome = true <;>
    by_cases h2 : (flt.cbs itype op).post_cb.isSome = true <;> simp [h1, h2]

theorem rfs_flt_ops_entry {σ : Type} (ops : rfs_ops) (flt : Dispatch.rfs_flt σ)
    (itype op : Nat) (h : ops.arr itype op < 256) :
    (rfs_flt_ops ops flt).arr itype op = (ops.arr itype op + callbacksOf flt itype op) % 256 := by
  simp only [rfs_flt_ops, callbacksOf, uchar_inc]
  split_ifs <;> omega

theorem rfs_chain_ops_entry {σ : Type} (rchain : List (Dispatch.rfs_flt σ)) (ops : rfs_ops)
    (itype op : Nat) (h : ops.arr itype op < 256) :
    (rfs_chain_ops rchain ops).arr itype op
      = (ops.arr itype op + callbackCount rchain itype op) % 256 := by
  unfold rfs_chain_ops callbackCount
  induction rchain generalizing ops with
  | nil =>
    simp only [List.foldl_nil, List.map_nil, List.sum_nil, Nat.add_zero]
    exact (Nat.mod_eq_of_lt h).symm
  | cons flt fs ih =>
    rw [List.foldl_cons, List.map_cons, List.sum_cons]
    have hlt : (rfs_flt_ops ops flt).arr itype op < 256 := by
      rw [rfs_flt_ops_entry ops flt itype op h]
      exact Nat.mod_lt _ (by decide)
    rw [ih (rfs_flt_ops ops flt) hlt, rfs_flt_ops_entry ops flt itype op h]
    omega

theorem callbackCount_le {σ : Type} (rchain : List (Dispatch.rfs_flt σ)) (itype op : Nat) :
    callbackCount rchain itype op ≤ 2 * rchain.length := by
  unfold callbackCount
  induction rchain with
  | nil => simp
  | cons flt fs ih =>
    rw [List.map_cons, List.sum_cons, List.length_cons]
    have := callbacksOf_le_two flt itype op
    omega

theorem callbackCount_pos_iff {σ : Type} (rchain : List (Dispatch.rfs_flt σ))
    (itype op : Nat) :
    callbackCount rchain itype op ≠ 0 ↔
      ∃ flt ∈ rchain, (flt.cbs itype op).pre_cb.isSome = true ∨
        (flt.cbs itype op).post_cb.isSome = true := by
  unfold callbackCount
  induction rchain with
  | nil => simp
  | cons flt fs ih =>
    rw [List.map_cons, List.sum_cons, List.exists_mem_cons_iff, ← ih, ← callbacksOf_pos_iff]
    omega

/-- Claim C13 (interest counters do not wrap within the documented limit). An
entry of `rfs_ops.arr` is an `unsigned char` that `rfs_chain_ops` increments at
most twice per filter, once for a pre-callback and once for a post-callback.
For every chain of at most 127 filters, starting from a zero entry, the entry
computed modulo 256 equals the exact number of callbacks; so it is non-zero,
which is the test `RFS_SET_OP` uses to decide hooking, if and only if at least
one filter of the chain has a pre- or post-callback for the (type, operation). -/
theorem C13_counter_exact_up_to_127 {σ : Type} (H : RedirfsDecls)
    (rchain : List (Dispatch.rfs_flt σ)) (ops : rfs_ops) (idc : Nat)
    (hlen : rchain.length ≤ 127)
    (hzero : ops.arr (H.RFS_IDC_TO_ITYPE idc) (H.RFS_IDC_TO_OP_ID idc) = 0) :
    (∀ flt ∈ rchain,
      callbacksOf flt (H.RFS_IDC_TO_ITYPE idc) (H.RFS_IDC_TO_OP_ID idc) ≤ 2) ∧
    (rfs_chain_ops rchain ops).arr (H.RFS_IDC_TO_ITYPE idc) (H.RFS_IDC_TO_OP_ID idc)
      = callbackCount rchain (H.RFS_IDC_TO_ITYPE idc) (H.RFS_IDC_TO_OP_ID idc) ∧
    ((rfs_chain_ops rchain ops).arr (H.RFS_IDC_TO_ITYPE idc) (H.RFS_IDC_TO_OP_ID idc) ≠ 0 ↔
      ∃ flt ∈ rchain,
        (flt.cbs (H.RFS_IDC_TO_ITYPE idc) (H.RFS_IDC_TO_OP_ID idc)).pre_cb.isSome = true ∨
        (flt.cbs (H.RFS_IDC_TO_ITYPE idc) (H.RFS_IDC_TO_OP_ID idc)).post_cb.isSome = true) ∧
    (interested H (some (rfs_chain_ops rchain ops)) idc = true ↔
      ∃ flt ∈ rchain,
        (flt.cbs (H.RFS_IDC_TO_ITYPE idc) (H.RFS_IDC_TO_OP_ID idc)).pre_cb.isSome = true ∨
        (flt.cbs (H.RFS_IDC_TO_ITYPE idc) (H.RFS_IDC_TO_OP_ID idc)).post_cb.isSome = true) := by
  have hexact : (rfs_chain_ops rchain ops).arr (H.RFS_IDC_TO_ITYPE idc) (H.RFS_IDC_TO_OP_ID idc)
      = callbackCount rchain (H.RFS_IDC_TO_ITYPE idc) (H.RFS_IDC_TO_OP_ID idc) := by
    rw [rfs_chain_ops_entry rchain ops _ _ (by rw [hzero]; decide), hzero, Nat.zero_add]
    apply Nat.mod_eq_of_lt
    have := callbackCount_le rchain (H.RFS_IDC_TO_ITYPE idc) (H.RFS_IDC_TO_OP_ID idc)
    omega
  have hnz : (rfs_chain_ops rchain ops).arr (H.RFS_IDC_TO_ITYPE idc) (H.RFS_IDC_TO_OP_ID idc) ≠ 0 ↔
      ∃ flt ∈ rchain,
        (flt.cbs (H.RFS_IDC_TO_ITYPE idc) (H.RFS_IDC_TO_OP_ID idc)).pre_cb.isSome = true ∨
        (flt.cbs (H.RFS_IDC_TO_ITYPE idc) (H.RFS_IDC_TO_OP_ID idc)).post_cb.isSome = true := by
    rw [hexact]
    exact callbackCount_pos_iff rchain _ _
  refine ⟨fun flt _ => callbacksOf_le_two flt _ _, hexact, hnz, ?_⟩
  rw [← hnz, interested_iff]
  constructor
  · rintro ⟨r, hr, hne⟩
    cases hr
    exact hne
  · intro hne
    exact ⟨_, rfl, hne⟩

/-- Witness of claim C13: a chain of 127 filters with both callbacks counts 254. -/
theorem C13_counter_exact_up_to_127_witness :
    (rfs_chain_ops (sampleFullChain 127) zeroOps).arr (sampleDecls.RFS_IDC_TO_ITYPE 1)
        (sampleDecls.RFS_IDC_TO_OP_ID 1)
      = callbackCount (sampleFullChain 127) (sampleDecls.RFS_IDC_TO_ITYPE 1)
          (sampleDecls.RFS_IDC_TO_OP_ID 1) :=
  (C13_counter_exact_up_to_127 sampleDecls (sampleFullChain 127) zeroOps 1
    (by simp [sampleFullChain]) rfl).2.1

/-- The limit of 127 filters is the largest that works: with 128 filters that
all have both callbacks the counter wraps to zero. -/
theorem rfs_chain_ops_wraps_at_128 :
    (rfs_chain_ops (sampleFullChain 128) zeroOps).arr 0 1 = 0 := by
  rw [rfs_chain_ops_entry _ _ _ _ (by decide)]
  have hc : ∀ n, callbackCount (sampleFullChain n) 0 1 = 2 * n := by
    intro n
    induction n with
    | zero => rfl
    | succ n ih =>
      have : callbackCount (sampleFullChain (n + 1)) 0 1
          = 2 + callbackCount (sampleFullChain n) 0 1 := by
        simp [callbackCount, sampleFullChain, List.replicate_succ, callbacksOf,
          Dispatch.sampleFlt]
      rw [this, ih]
      omega
  rw [hc 128]
  rfl

/-! ## Shared table: a set bit and the hook behind it -/

/-- The shared record after any call: either the installation ran, or nothing
changed. -/
theorem Shared.step_rhops_cases (H : RedirfsDecls) (k : ObjKind) (s : Shared.Sys) (c : Call) :
    (Shared.step H k s c).rhops =
      if c.mgt = true then
        (if test_bit (Shared.RFS_xOP_BIT H k c.idc) s.rhops.op_bitfield = false then
          { old := s.rhops.old
            new := RFS_ADD_OP_MGT s.rhops.new s.rhops.old c.op c.f
            op_bitfield := set_bit (Shared.RFS_xOP_BIT H k c.idc) s.rhops.op_bitfield }
        else s.rhops)
      else
        (if interested H c.rops c.idc = true ∧
            test_bit (Shared.RFS_xOP_BIT H k c.idc) s.rhops.op_bitfield = false then
          { old := s.rhops.old
            new := RFS_ADD_OP s.rhops.new s.rhops.old c.op c.f
            op_bitfield := set_bit (Shared.RFS_xOP_BIT H k c.idc) s.rhops.op_bitfield }
        else s.rhops) := by
  rw [Shared.step_rhops, Shared.RFS_SET_xOP_MGT_rhops, Shared.RFS_SET_xOP_rhops]
  rfl

/-- The bit array of an object after any call. -/
theorem Shared.step_bits_cases (H : RedirfsDecls) (k : ObjKind) (s : Shared.Sys) (c : Call)
    (p : Nat) :
    (Shared.step H k s c).bits p =
      if p = c.obj then
        (if c.mgt = true ∨ interested H c.rops c.idc = true then
          set_bit (Shared.RFS_xOP_BIT H k c.idc) (s.bits c.obj)
        else clear_bit (Shared.RFS_xOP_BIT H k c.idc) (s.bits c.obj))
      else s.bits p := by
  rw [Shared.step_bits, Shared.RFS_SET_xOP_MGT_bits, Shared.RFS_SET_xOP_bits]
  by_cases hp : p = c.obj
  · by_cases hm : c.mgt = true
    · simp [hp, hm, Shared.Sys.view]
    · by_cases hi : interested H c.rops c.idc = true <;> simp [hp, hm, hi, Shared.Sys.view]
  · simp [hp]

/-- A call that sets the shared bit of an operation ran the installation for it. -/
theorem Shared.step_sets_shared_bit (H : RedirfsDecls) (k : ObjKind) (s : Shared.Sys)
    (c : Call) (nr : Int) (h0 : test_bit nr s.rhops.op_bitfield = false)
    (h1 : test_bit nr (Shared.step H k s c).rhops.op_bitfield = true) :
    Shared.RFS_xOP_BIT H k c.idc = nr ∧
      (Shared.step H k s c).rhops.new =
        (if c.mgt = true then RFS_ADD_OP_MGT s.rhops.new s.rhops.old c.op c.f
         else RFS_ADD_OP s.rhops.new s.rhops.old c.op c.f) := by
  have hnr : ∀ b : Bitfield, test_bit nr b = false →
      test_bit nr (set_bit (Shared.RFS_xOP_BIT H k c.idc) b) = true →
      Shared.RFS_xOP_BIT H k c.idc = nr := by
    intro b hb0 hb1
    by_contra hne
    rw [test_bit_set_bit_other b (fun h => hne h.symm), hb0] at hb1
    exact absurd hb1 (by decide)
  have hr := Shared.step_rhops_cases H k s c
  by_cases hm : c.mgt = true
  · rw [if_pos hm] at hr
    by_cases hb : test_bit (Shared.RFS_xOP_BIT H k c.idc) s.rhops.op_bitfield = false
    · rw [if_pos hb] at hr
      rw [hr] at h1 ⊢
      exact ⟨hnr _ h0 h1, by rw [if_pos hm]⟩
    · rw [if_neg hb] at hr
      rw [hr, h0] at h1
      exact absurd h1 (by decide)
  · rw [if_neg hm] at hr
    by_cases hb : interested H c.rops c.idc = true ∧
        test_bit (Shared.RFS_xOP_BIT H k c.idc) s.rhops.op_bitfield = false
    · rw [if_pos hb] at hr
      rw [hr] at h1 ⊢
      exact ⟨hnr _ h0 h1, by rw [if_neg hm]⟩
    · rw [if_neg hb] at hr
      rw [hr, h0] at h1
      exact absurd h1 (by decide)

/-- An object bit of an operation is only set together with the shared bit. -/
theorem Shared.step_bit_implies_shared (H : RedirfsDecls) (k : ObjKind) (s : Shared.Sys)
    (c : Call) (nr : Int)
    (hinv : ∀ o, test_bit nr (s.bits o) = true → test_bit nr s.rhops.op_bitfield = true) :
    ∀ o, test_bit nr ((Shared.step H k s c).bits o) = true →
      test_bit nr (Shared.step H k s c).rhops.op_bitfield = true := by
  intro o ho
  by_cases hold : test_bit nr (s.bits o) = true
  · exact Shared.step_shared_bit H k s c nr (hinv o hold)
  · rw [Shared.step_bits_cases] at ho
    by_cases hp : o = c.obj
    · rw [if_pos hp] at ho
      rw [hp] at hold
      by_cases hnr : nr = Shared.RFS_xOP_BIT H k c.idc
      · by_cases hset : c.mgt = true ∨ interested H c.rops c.idc = true
        · rw [Shared.step_rhops_cases, hnr]
          rcases hset with hm | hi
          · rw [if_pos hm]
            by_cases hb : test_bit (Shared.RFS_xOP_BIT H k c.idc) s.rhops.op_bitfield = false
            · rw [if_pos hb]
              exact test_bit_set_bit_same _ _
            · rw [if_neg hb]
              simpa using hb
          · by_cases hm : c.mgt = true
            · rw [if_pos hm]
              by_cases hb : test_bit (Shared.RFS_xOP_BIT H k c.idc) s.rhops.op_bitfield = false
              · rw [if_pos hb]
                exact test_bit_set_bit_same _ _
              · rw [if_neg hb]
                simpa using hb
            · rw [if_neg hm]
              by_cases hb : test_bit (Shared.RFS_xOP_BIT H k c.idc) s.rhops.op_bitfield = false
              · rw [if_pos ⟨hi, hb⟩]
                exact test_bit_set_bit_same _ _
              · rw [if_neg (fun h => hb h.2)]
                simpa using hb
        · rw [if_neg hset, hnr, test_bit_clear_bit_same] at ho
          exact absurd ho (by decide)
      · split_ifs at ho
        · rw [test_bit_set_bit_other _ hnr] at ho
          exact absurd ho hold
        · rw [test_bit_clear_bit_other _ hnr] at ho
          exact absurd ho hold
    · rw [if_neg hp] at ho
      exact absurd ho hold

/-- A set shared bit of an operation stands for an installed trampoline, as long
as the calls are consistent with the operation and either the driver defines it
or the call, when it names the operation, is a management call. -/
theorem Shared.step_shared_bit_hooked (H : RedirfsDecls) (k : ObjKind) (s : Shared.Sys)
    (c : Call) (idc op : Nat) (f : FnPtr) (hT : Shared.Tied H k idc op f c)
    (hcond : definesOp s.rhops.old op ∨ (c.op = op → c.mgt = true))
    (hinv : test_bit (Shared.RFS_xOP_BIT H k idc) s.rhops.op_bitfield = true →
      s.rhops.new op = f) :
    test_bit (Shared.RFS_xOP_BIT H k idc) (Shared.step H k s c).rhops.op_bitfield = true →
      (Shared.step H k s c).rhops.new op = f := by
  intro h1
  by_cases h0 : test_bit (Shared.RFS_xOP_BIT H k idc) s.rhops.op_bitfield = true
  · rcases Shared.step_new_cases H k s c op with hu | ⟨hop, hf⟩
    · rw [hu]
      exact hinv h0
    · rw [hf]
      exact hT.2 hop.symm
  · have h0f : test_bit (Shared.RFS_xOP_BIT H k idc) s.rhops.op_bitfield = false := by
      simpa using h0
    obtain ⟨hnr, hnew⟩ := Shared.step_sets_shared_bit H k s c _ h0f h1
    have hop : c.op = op := hT.1.mp hnr
    have hf : c.f = f := hT.2 hop
    rw [hnew, hop, hf]
    by_cases hm : c.mgt = true
    · rw [if_pos hm]
      exact RFS_ADD_OP_MGT_same _ _ _ _
    · rw [if_neg hm]
      rcases hcond with hd | hmg
      · exact RFS_ADD_OP_defined _ _ _ _ hd
      · exact absurd (hmg hop) hm

/-- Along a sequence of consistent calls from the initial state: an object bit
of the operation implies the shared bit, and the shared bit implies the hook. -/
theorem Shared.run_hooked (H : RedirfsDecls) (k : ObjKind) (old : Option OpsTable)
    (idc op : Nat) (f : FnPtr) (cs : List Call)
    (hcs : ∀ c ∈ cs, Shared.Tied H k idc op f c)
    (hcond : definesOp old op ∨ ∀ c ∈ cs, c.op = op → c.mgt = true) :
    (Shared.run H k (Shared.init old) cs).rhops.old = old ∧
    (∀ o, test_bit (Shared.RFS_xOP_BIT H k idc) ((Shared.run H k (Shared.init old) cs).bits o)
        = true →
      test_bit (Shared.RFS_xOP_BIT H k idc)
        (Shared.run H k (Shared.init old) cs).rhops.op_bitfield = true) ∧
    (test_bit (Shared.RFS_xOP_BIT H k idc)
        (Shared.run H k (Shared.init old) cs).rhops.op_bitfield = true →
      (Shared.run H k (Shared.init old) cs).rhops.new op = f) := by
  have gen : ∀ (cs : List Call) (s : Shared.Sys),
      (∀ c ∈ cs, Shared.Tied H k idc op f c) →
      (definesOp old op ∨ ∀ c ∈ cs, c.op = op → c.mgt = true) →
      s.rhops.old = old →
      (∀ o, test_bit (Shared.RFS_xOP_BIT H k idc) (s.bits o) = true →
        test_bit (Shared.RFS_xOP_BIT H k idc) s.rhops.op_bitfield = true) →
      (test_bit (Shared.RFS_xOP_BIT H k idc) s.rhops.op_bitfield = true → s.rhops.new op = f) →
      (Shared.run H k s cs).rhops.old = old ∧
      (∀ o, test_bit (Shared.RFS_xOP_BIT H k idc) ((Shared.run H k s cs).bits o) = true →
        test_bit (Shared.RFS_xOP_BIT H k idc) (Shared.run H k s cs).rhops.op_bitfield = true) ∧
      (test_bit (Shared.RFS_xOP_BIT H k idc) (Shared.run H k s cs).rhops.op_bitfield = true →
        (Shared.run H k s cs).rhops.new op = f) := by
    intro cs
    induction cs with
    | nil => exact fun s _ _ h1 h2 h3 => ⟨h1, h2, h3⟩
    | cons c cs ih =>
      intro s hT hc h1 h2 h3
      have hrun : Shared.run H k s (c :: cs) = Shared.run H k (Shared.step H k s c) cs := rfl
      rw [hrun]
      apply ih
      · exact fun d hd => hT d (List.mem_cons_of_mem c hd)
      · exact hc.imp id (fun h d hd => h d (List.mem_cons_of_mem c hd))
      · rw [Shared.step_old]
        exact h1
      · exact Shared.step_bit_implies_shared H k s c _ h2
      · exact Shared.step_shared_bit_hooked H k s c idc op f (hT c (List.mem_cons_self c cs))
          (hc.imp (fun h => h1 ▸ h) (fun h => h c (List.mem_cons_self c cs))) h3
  apply gen cs (Shared.init old) hcs hcond rfl
  · intro o h
    simp [Shared.init, test_bit, noBits] at h
  · intro h
    simp [Shared.init, test_bit, noBits] at h

/-- Claim C14 (shared table, a set bit means a real hook). In every state
reachable from the initial state (all object bits and shared bits clear, shared
table equal to the original table) by any finite sequence of `RFS_SET_xOP` calls
(and `RFS_SET_xOP_MGT` calls as well) on objects sharing the table, each call
consistent with the operation (it has the bit number of the operation exactly
when it names the field of the operation, and then passes the trampoline `f`):
if the original table defines the operation and the bit of the operation is set
in some object, the shared slot of the operation equals `f`. -/
theorem C14_set_bit_means_hook (H : RedirfsDecls) (k : ObjKind) (old : Option OpsTable)
    (idc op : Nat) (f : FnPtr) (cs : List Call) (o : Nat)
    (hcs : ∀ c ∈ cs, Shared.Tied H k idc op f c)
    (hdef : definesOp old op)
    (hbit : Shared.RFS_IS_xOP_SET H k ((Shared.run H k (Shared.init old) cs).view o) idc = true) :
    (Shared.run H k (Shared.init old) cs).rhops.new op = f := by
  obtain ⟨_, h2, h3⟩ := Shared.run_hooked H k old idc op f cs hcs (Or.inl hdef)
  exact h3 (h2 o hbit)

/-- Witness of claim C14: calls for fields 0 and 1 of the sample driver on two
objects; the bit of field 1 is set in object 1 at the end. -/
theorem C14_set_bit_means_hook_witness :
    (Shared.run sampleDecls ObjKind.f (Shared.init (some sampleOld))
      [⟨false, 0, some (sampleRops 1), 0, 0, 66⟩, ⟨false, 1, some (sampleRops 2), 1, 1, 77⟩,
       ⟨false, 0, none, 0, 0, 66⟩, ⟨false, 0, some (sampleRops 1), 101, 1, 77⟩,
       ⟨false, 0, some (sampleRops 0), 1, 1, 77⟩]).rhops.new 1 = 77 :=
  C14_set_bit_means_hook sampleDecls ObjKind.f (some sampleOld) 1 1 77 _ 1
    (by decide) (by decide) (by decide)

/-- Counterexample to claim C15: the sample driver does not define field 5. From
the initial state a plain `RFS_SET_FOP` with an interested filter sets the shared
bit of field 5 without installing anything; the `RFS_SET_FOP_MGT` call that
follows finds the shared bit set and installs nothing either: the bit of the
object is set but the shared slot is not the trampoline 77. -/
theorem C15_mgt_after_plain_not_hooked :
    ¬ (Shared.RFS_IS_xOP_SET sampleDecls ObjKind.f
          ((Shared.step sampleDecls ObjKind.f
            (Shared.run sampleDecls ObjKind.f (Shared.init (some sampleOld))
              [⟨false, 0, some (sampleRops 1), 5, 5, 77⟩])
            ⟨true, 0, none, 5, 5, 77⟩).view 0) 5 = true ∧
        (Shared.step sampleDecls ObjKind.f
            (Shared.run sampleDecls ObjKind.f (Shared.init (some sampleOld))
              [⟨false, 0, some (sampleRops 1), 5, 5, 77⟩])
            ⟨true, 0, none, 5, 5, 77⟩).rhops.new 5 = 77) := by
  decide

/-- Once the shared bit of an operation is set, no consistent call changes the
shared slot of the operation, and the bit stays set. -/
theorem Shared.step_slot_frozen (H : RedirfsDecls) (k : ObjKind) (s : Shared.Sys) (c : Call)
    (idc op : Nat) (f : FnPtr) (hT : Shared.Tied H k idc op f c)
    (hb : test_bit (Shared.RFS_xOP_BIT H k idc) s.rhops.op_bitfield = true) :
    (Shared.step H k s c).rhops.new op = s.rhops.new op ∧
      test_bit (Shared.RFS_xOP_BIT H k idc) (Shared.step H k s c).rhops.op_bitfield = true := by
  refine ⟨?_, Shared.step_shared_bit H k s c _ hb⟩
  by_cases hnr : Shared.RFS_xOP_BIT H k c.idc = Shared.RFS_xOP_BIT H k idc
  · have hset : ¬ test_bit (Shared.RFS_xOP_BIT H k c.idc) s.rhops.op_bitfield = false := by
      rw [hnr, hb]
      decide
    have hr := Shared.step_rhops_cases H k s c
    by_cases hm : c.mgt = true
    · rw [if_pos hm, if_neg hset] at hr
      rw [hr]
    · rw [if_neg hm, if_neg (fun h => hset h.2)] at hr
      rw [hr]
  · have hop : op ≠ c.op := fun h => hnr (hT.1.mpr h.symm)
    rcases Shared.step_new_cases H k s c op with hu | ⟨h1, _⟩
    · exact hu
    · exact absurd h1 hop

theorem Shared.run_slot_frozen (H : RedirfsDecls) (k : ObjKind) (s : Shared.Sys)
    (cs : List Call) (idc op : Nat) (f : FnPtr)
    (hcs : ∀ c ∈ cs, Shared.Tied H k idc op f c)
    (hb : test_bit (Shared.RFS_xOP_BIT H k idc) s.rhops.op_bitfield = true) :
    (Shared.run H k s cs).rhops.new op = s.rhops.new op ∧
      test_bit (Shared.RFS_xOP_BIT H k idc) (Shared.run H k s cs).rhops.op_bitfield = true := by
  induction cs generalizing s with
  | nil => exact ⟨rfl, hb⟩
  | cons c cs ih =>
    have hrun : Shared.run H k s (c :: cs) = Shared.run H k (Shared.step H k s c) cs := rfl
    obtain ⟨h1, h2⟩ :=
      Shared.step_slot_frozen H k s c idc op f (hcs c (List.mem_cons_self c cs)) hb
    obtain ⟨h3, h4⟩ := ih (Shared.step H k s c)
      (fun d hd => hcs d (List.mem_cons_of_mem c hd)) h2
    rw [hrun, h3, h1]
    exact ⟨rfl, h4⟩

/-- The shared slot of an operation right after a management call for it, from a
state in which the shared bit of the operation is still clear and the slot holds
the driver pointer. -/
theorem Shared.mgt_slot_from_clear (H : RedirfsDecls) (k : ObjKind) (old : Option OpsTable)
    (idc op : Nat) (f : FnPtr) (cs : List Call) (c : Call) (s : Shared.Sys)
    (hcs : ∀ d ∈ cs, Shared.Tied H k idc op f d)
    (hc : c.mgt = true ∧ c.idc = idc ∧ c.op = op ∧ c.f = f)
    (hold : s.rhops.old = old)
    (hb : test_bit (Shared.RFS_xOP_BIT H k idc) s.rhops.op_bitfield = false)
    (hslot : s.rhops.new op = oldOp old op) :
    (Shared.step H k (Shared.run H k s cs) c).rhops.new op =
      if definesOp old op ∨ Shared.plainInstallsFirst H k idc cs = false then f
      else oldOp old op := by
  obtain ⟨hm, hidc, hop, hf⟩ := hc
  have hcT : Shared.Tied H k idc op f c := by
    refine ⟨?_, fun _ => hf⟩
    rw [hidc, hop]
    exact ⟨fun _ => rfl, fun _ => rfl⟩
  induction cs generalizing s with
  | nil =>
    have hrun : Shared.run H k s [] = s := rfl
    rw [hrun, Shared.step_rhops_cases, if_pos hm, hidc, if_pos hb, hop, hf]
    simp only [Shared.plainInstallsFirst, or_true, if_true]
    exact RFS_ADD_OP_MGT_same _ s.rhops.old op f
  | cons d ds ih =>
    have hrun : Shared.run H k s (d :: ds) = Shared.run H k (Shared.step H k s d) ds := rfl
    have hdT := hcs d (List.mem_cons_self d ds)
    have hdsT : ∀ e ∈ ds, Shared.Tied H k idc op f e :=
      fun e he => hcs e (List.mem_cons_of_mem d he)
    have hfrozen : test_bit (Shared.RFS_xOP_BIT H k idc)
          (Shared.step H k s d).rhops.op_bitfield = true →
        (Shared.step H k (Shared.run H k (Shared.step H k s d) ds) c).rhops.new op
          = (Shared.step H k s d).rhops.new op := by
      intro hset
      obtain ⟨h1, h2⟩ := Shared.run_slot_frozen H k (Shared.step H k s d) ds idc op f hdsT hset
      rw [(Shared.step_slot_frozen H k _ c idc op f hcT h2).1, h1]
    rw [hrun]
    by_cases hnr : Shared.RFS_xOP_BIT H k d.idc = Shared.RFS_xOP_BIT H k idc
    · have hdop : d.op = op := hdT.1.mp hnr
      have hdf : d.f = f := hdT.2 hdop
      have hbd : test_bit (Shared.RFS_xOP_BIT H k d.idc) s.rhops.op_bitfield = false := by
        rw [hnr]
        exact hb
      by_cases hdm : d.mgt = true
      · have hr := Shared.step_rhops_cases H k s d
        rw [if_pos hdm, if_pos hbd, hdop, hdf] at hr
        have hset : test_bit (Shared.RFS_xOP_BIT H k idc)
            (Shared.step H k s d).rhops.op_bitfield = true := by
          rw [hr, ← hnr]
          exact test_bit_set_bit_same _ _
        rw [hfrozen hset, hr]
        simp only [Shared.plainInstallsFirst, hnr, hdm, if_true, or_true]
        exact RFS_ADD_OP_MGT_same _ s.rhops.old op f
      · by_cases hdi : interested H d.rops d.idc = true
        · have hr := Shared.step_rhops_cases H k s d
          rw [if_neg hdm, if_pos ⟨hdi, hbd⟩, hdop, hdf] at hr
          have hset : test_bit (Shared.RFS_xOP_BIT H k idc)
              (Shared.step H k s d).rhops.op_bitfield = true := by
            rw [hr, ← hnr]
            exact test_bit_set_bit_same _ _
          rw [hfrozen hset, hr]
          simp only [Shared.plainInstallsFirst, hnr, hdm, hdi, if_true, if_false,
            Bool.true_eq_false, or_false, Bool.false_eq_true]
          by_cases hd : definesOp old op
          · rw [if_pos hd]
            exact RFS_ADD_OP_defined _ _ _ _ (hold ▸ hd)
          · rw [if_neg hd]
            show RFS_ADD_OP s.rhops.new s.rhops.old op f op = oldOp old op
            rw [RFS_ADD_OP_undefined _ _ _ _ (hold ▸ hd)]
            exact hslot
        · have hr := Shared.step_rhops_cases H k s d
          rw [if_neg hdm, if_neg (fun h => hdi h.1)] at hr
          have hpf : Shared.plainInstallsFirst H k idc (d :: ds)
              = Shared.plainInstallsFirst H k idc ds := by
            simp only [Shared.plainInstallsFirst, hnr, hdm, hdi, if_true, if_false,
              Bool.false_eq_true]
          rw [hpf]
          exact ih (Shared.step H k s d) hdsT (by rw [hr]; exact hold) (by rw [hr]; exact hb)
            (by rw [hr]; exact hslot)
    · have hpf : Shared.plainInstallsFirst H k idc (d :: ds)
          = Shared.plainInstallsFirst H k idc ds := by
        simp only [Shared.plainInstallsFirst, hnr, if_false]
      have hdop : op ≠ d.op := fun h => hnr (hdT.1.mpr h.symm)
      rw [hpf]
      apply ih (Shared.step H k s d) hdsT
      · rw [Shared.step_old]
        exact hold
      · by_contra hset
        have hset1 : test_bit (Shared.RFS_xOP_BIT H k idc)
            (Shared.step H k s d).rhops.op_bitfield = true := by simpa using hset
        exact hnr (Shared.step_sets_shared_bit H k s d _ hb hset1).1
      · rcases Shared.step_new_cases H k s d op with hu | ⟨h1, _⟩
        · rw [hu]
          exact hslot
        · exact absurd h1 hdop

/-- Claim C15, amended. In every state reachable from the initial state (all bits
clear, shared table equal to the original table) by any finite sequence of
`RFS_SET_xOP` and `RFS_SET_xOP_MGT` calls, each consistent with the operation (it
has the bit number of the operation exactly when it names the field of the
operation, and then passes the trampoline `f`), immediately after a call of
`RFS_SET_FOP_MGT` / `RFS_SET_DOP_MGT` / `RFS_SET_IOP_MGT` for the operation: the
bit of the operation is set in the object, whether or not any filter is
interested; and the shared slot of the operation equals `f` when the original
table defines the operation or the first call of the sequence that reached the
installation step for the operation (a management call, or a plain call with an
interested filter) was a management call, and holds the original pointer
otherwise, that is when the original table does not define the operation and a
plain call with an interested filter came before every management call. -/
theorem C15_mgt_hook_exact (H : RedirfsDecls) (k : ObjKind) (old : Option OpsTable)
    (idc op : Nat) (f : FnPtr) (cs : List Call) (c : Call)
    (hcs : ∀ d ∈ cs, Shared.Tied H k idc op f d)
    (hc : c.mgt = true ∧ c.idc = idc ∧ c.op = op ∧ c.f = f) :
    Shared.RFS_IS_xOP_SET H k
        ((Shared.step H k (Shared.run H k (Shared.init old) cs) c).view c.obj) idc = true ∧
    (Shared.step H k (Shared.run H k (Shared.init old) cs) c).rhops.new op =
      (if definesOp old op ∨ Shared.plainInstallsFirst H k idc cs = false then f
       else oldOp old op) ∧
    (f ≠ oldOp old op →
      ((Shared.step H k (Shared.run H k (Shared.init old) cs) c).rhops.new op = f ↔
        (definesOp old op ∨ Shared.plainInstallsFirst H k idc cs = false))) := by
  have hval := Shared.mgt_slot_from_clear H k old idc op f cs c (Shared.init old) hcs hc rfl
    (by simp [Shared.init, test_bit, noBits]) rfl
  obtain ⟨hm, hidc, _, _⟩ := hc
  refine ⟨?_, hval, ?_⟩
  · simp only [Shared.RFS_IS_xOP_SET, Shared.Sys.view]
    rw [Shared.step_bits_cases, if_pos rfl, if_pos (Or.inl hm), hidc]
    exact test_bit_set_bit_same _ _
  · intro hne
    rw [hval]
    by_cases hcond : definesOp old op ∨ Shared.plainInstallsFirst H k idc cs = false
    · simp [hcond]
    · simp only [hcond, if_false, iff_false]
      exact Ne.symm hne

/-- Witness of claim C15, amended: field 5, which the sample driver does not
define. A plain call without an interested filter, a management call, then a
plain call with an interested filter come before the management call; the
management call was the first to reach the installation, so the slot is 77. -/
theorem C15_mgt_hook_exact_witness :
    (Shared.step sampleDecls ObjKind.f
        (Shared.run sampleDecls ObjKind.f (Shared.init (some sampleOld))
          [⟨false, 0, some (sampleRops 0), 5, 5, 77⟩, ⟨true, 0, none, 5, 5, 77⟩,
           ⟨false, 1, some (sampleRops 1), 5, 5, 77⟩, ⟨false, 1, some (sampleRops 1), 1, 1, 66⟩])
        ⟨true, 1, none, 5, 5, 77⟩).rhops.new 5 = 77 ↔
      (definesOp (some sampleOld) 5 ∨
        Shared.plainInstallsFirst sampleDecls ObjKind.f 5
          [⟨false, 0, some (sampleRops 0), 5, 5, 77⟩, ⟨true, 0, none, 5, 5, 77⟩,
           ⟨false, 1, some (sampleRops 1), 5, 5, 77⟩, ⟨false, 1, some (sampleRops 1), 1, 1, 66⟩]
          = false) :=
  (C15_mgt_hook_exact sampleDecls ObjKind.f (some sampleOld) 5 5 77
    [⟨false, 0, some (sampleRops 0), 5, 5, 77⟩, ⟨true, 0, none, 5, 5, 77⟩,
     ⟨false, 1, some (sampleRops 1), 5, 5, 77⟩, ⟨false, 1, some (sampleRops 1), 1, 1, 66⟩]
    ⟨true, 1, none, 5, 5, 77⟩ (by decide) ⟨rfl, rfl, rfl, rfl⟩).2.2 (by decide)

/-! ## Bit numbers and the size of the bit arrays -/

/-- Claim C16 (bit numbers stay inside the bit array). For each object kind `k`
(f, d, i, a) and every operation code whose operation id lies between
`RFS_OP_k_start` and `RFS_OP_k_end`, the bit number `RFS_kOP_BIT`, the id minus
`RFS_OP_k_start`, is non-negative and strictly smaller than the capacity of the
bit array of the object, `(BIT_WORD(RFS_OP_k_end - RFS_OP_k_start) + 1) *
BITS_PER_LONG` bits; and distinct operation ids in that range get distinct bit
numbers. `BITS_PER_LONG` is any positive word size. -/
theorem C16_bit_number_in_bitfield (H : RedirfsDecls) (BITS_PER_LONG : Nat)
    (hB : 0 < BITS_PER_LONG) (k : ObjKind) (idc : Nat)
    (hlo : H.RFS_OP_start k ≤ H.RFS_IDC_TO_OP_ID idc)
    (hhi : H.RFS_IDC_TO_OP_ID idc ≤ H.RFS_OP_end k) :
    0 ≤ Shared.RFS_xOP_BIT H k idc ∧
    Shared.RFS_xOP_BIT H k idc < bitfieldCapacity H BITS_PER_LONG k ∧
    ∀ idc2, H.RFS_OP_start k ≤ H.RFS_IDC_TO_OP_ID idc2 →
      H.RFS_IDC_TO_OP_ID idc2 ≤ H.RFS_OP_end k →
      H.RFS_IDC_TO_OP_ID idc ≠ H.RFS_IDC_TO_OP_ID idc2 →
      Shared.RFS_xOP_BIT H k idc ≠ Shared.RFS_xOP_BIT H k idc2 := by
  refine ⟨?_, ?_, ?_⟩
  · unfold Shared.RFS_xOP_BIT
    omega
  · have hse : H.RFS_OP_start k ≤ H.RFS_OP_end k := le_trans hlo hhi
    have hbit : Shared.RFS_xOP_BIT H k idc
        = ((H.RFS_IDC_TO_OP_ID idc - H.RFS_OP_start k : Nat) : Int) := by
      unfold Shared.RFS_xOP_BIT
      omega
    have hcap : bitfieldCapacity H BITS_PER_LONG k
        = ((((H.RFS_OP_end k - H.RFS_OP_start k) / BITS_PER_LONG + 1) * BITS_PER_LONG : Nat)
            : Int) := by
      have hsub : (H.RFS_OP_end k : Int) - (H.RFS_OP_start k : Int)
          = ((H.RFS_OP_end k - H.RFS_OP_start k : Nat) : Int) := by omega
      unfold bitfieldCapacity bitfieldWords BIT_WORD
      rw [hsub]
      push_cast
      rfl
    rw [hbit, hcap]
    have h1 : H.RFS_IDC_TO_OP_ID idc - H.RFS_OP_start k
        ≤ H.RFS_OP_end k - H.RFS_OP_start k := by omega
    have h2 := Nat.lt_mul_div_succ (H.RFS_OP_end k - H.RFS_OP_start k) hB
    rw [Nat.mul_comm] at h2
    exact_mod_cast lt_of_le_of_lt h1 h2
  · intro idc2 hlo2 _ hne
    unfold Shared.RFS_xOP_BIT
    omega

/-- Witness of claim C16: the inode operations of the sample decoding (ids 20..39)
with 64-bit words; operation code 139 has id 39. -/
theorem C16_bit_number_in_bitfield_witness :
    0 ≤ Shared.RFS_xOP_BIT sampleDecls ObjKind.i 139 ∧
    Shared.RFS_xOP_BIT sampleDecls ObjKind.i 139 < bitfieldCapacity sampleDecls 64 ObjKind.i ∧
    ∀ idc2, sampleDecls.RFS_OP_start ObjKind.i ≤ sampleDecls.RFS_IDC_TO_OP_ID idc2 →
      sampleDecls.RFS_IDC_TO_OP_ID idc2 ≤ sampleDecls.RFS_OP_end ObjKind.i →
      sampleDecls.RFS_IDC_TO_OP_ID 139 ≠ sampleDecls.RFS_IDC_TO_OP_ID idc2 →
      Shared.RFS_xOP_BIT sampleDecls ObjKind.i 139 ≠ Shared.RFS_xOP_BIT sampleDecls ObjKind.i idc2 :=
  C16_bit_number_in_bitfield sampleDecls 64 (by decide) ObjKind.i 139 (by decide) (by decide)

end Redirfs
